import Mathlib

/-!
Verification development for the clox expression interpreter: a shallow
embedding of the scanner (scanner.c), chunk (chunk.c), compiler
(compiler.c), value representation (value.c) and virtual machine (vm.c),
together with theorems about the claimed properties of those components.
-/

set_option maxHeartbeats 4000000

set_option maxRecDepth 100000

unseal Rat.mul

unseal Rat.add

unseal Rat.sub

unseal Rat.inv

namespace Clox

/-! ## Value representation (value.h / value.c)

The C `Value` is a tagged union over `VAL_NIL`, `VAL_BOOL` (a C `bool`)
and `VAL_NUMBER` (a C `double`).  The host IEEE-754 `double` is modelled
by `Dbl`: a NaN plus exact finite values represented as rationals.  The
infinities are not separately represented (no claim exercises them); the
IEEE behaviour that matters to the claims — NaN is unequal to and
incomparable with everything, including itself — is preserved by the
operations below.
-/

/-- Model of the host C `double`: NaN, or a finite value as an exact
rational. -/
inductive Dbl where
  | nan : Dbl
  | fin (q : ℚ) : Dbl
deriving DecidableEq, Repr

/-- Host IEEE `==` on doubles: NaN compares unequal to everything,
including itself; finite values compare exactly. -/
def dblEq : Dbl → Dbl → Bool
  | .fin p, .fin q => p == q
  | _, _ => false

/-- Host IEEE `<` on doubles: any comparison involving NaN is false. -/
def dblLt : Dbl → Dbl → Bool
  | .fin p, .fin q => p < q
  | _, _ => false

/-- Host IEEE `>` on doubles: any comparison involving NaN is false. -/
def dblGt : Dbl → Dbl → Bool
  | .fin p, .fin q => p > q
  | _, _ => false

/-- Host IEEE `+` on doubles: NaN propagates. -/
def dblAdd : Dbl → Dbl → Dbl
  | .fin p, .fin q => .fin (p + q)
  | _, _ => .nan

/-- Host IEEE `-` on doubles: NaN propagates. -/
def dblSub : Dbl → Dbl → Dbl
  | .fin p, .fin q => .fin (p - q)
  | _, _ => .nan

/-- Host IEEE `*` on doubles: NaN propagates. -/
def dblMul : Dbl → Dbl → Dbl
  | .fin p, .fin q => .fin (p * q)
  | _, _ => .nan

/-- Host IEEE `/` on doubles: NaN propagates; division by zero produces a
non-finite result, collapsed to `nan` in this model (the infinities are
not separately represented and no claim exercises them). -/
def dblDiv : Dbl → Dbl → Dbl
  | .fin p, .fin q => if q = 0 then .nan else .fin (p / q)
  | _, _ => .nan

/-- Host IEEE unary negation on doubles. -/
def dblNeg : Dbl → Dbl
  | .fin p => .fin (-p)
  | .nan => .nan

/-- The tagged `Value` union of value.h: `NIL_VAL`, `BOOL_VAL`,
`NUMBER_VAL`. -/
inductive Value where
  | nil : Value
  | bool (b : Bool) : Value
  | number (d : Dbl) : Value
deriving DecidableEq, Repr

/-- The `IS_NUMBER` macro of value.h. -/
def isNumberV : Value → Bool
  | .number _ => true
  | _ => false

/-- `valuesEqual` from value.c: values of different variants are unequal
(the `a.type != b.type` early return); otherwise payloads are compared
(`AS_BOOL` bits, trivially for nil, host IEEE `==` for numbers). -/
def valuesEqual (a b : Value) : Bool :=
  match a, b with
  | .nil, .nil => true
  | .bool x, .bool y => x == y
  | .number p, .number q => dblEq p q
  | _, _ => false

/-! ## Decimal rendering: model of `printf("%g", d)` used by `printValue`

`printValue` in value.c prints numbers with the host C `printf` `%g`
conversion at its default precision of 6 significant digits: the value is
rounded to 6 significant digits, trailing zeros are removed, and
scientific notation (with a sign and an at-least-two-digit exponent) is
used when the decimal exponent is below -4 or at least 6.  Ties in the
rounding (which never arise for the inputs considered in this file) are
rounded upward in this model.
-/

/-- The decimal digit character for a digit value below ten. -/
def digitChar (d : ℕ) : Char := Char.ofNat (48 + d)

/-- Fuel-driven accumulation of the decimal digits of a natural number,
most significant first.  Fuel `n + 1` is always sufficient for `n`. -/
def natDigitsGo : ℕ → ℕ → List Char → List Char
  | 0, _, acc => acc
  | f + 1, n, acc => if n = 0 then acc else natDigitsGo f (n / 10) (digitChar (n % 10) :: acc)

/-- The decimal digits of a natural number, most significant first. -/
def natDigits (n : ℕ) : List Char :=
  if n = 0 then ['0'] else natDigitsGo (n + 1) n []

/-- Render a natural number in decimal. -/
def natStr (n : ℕ) : String := String.mk (natDigits n)

/-- Remove trailing `'0'` characters from a digit list. -/
def stripTrailZeros (cs : List Char) : List Char :=
  (cs.reverse.dropWhile (fun c => c = '0')).reverse

/-- Ten to an integer power, as a rational. -/
def pow10z (e : ℤ) : ℚ :=
  if 0 ≤ e then (10 : ℚ) ^ e.toNat else 1 / (10 : ℚ) ^ (-e).toNat

/-- Fuel-driven floor of the base-10 logarithm of a rational at least 1. -/
def log10GeOne : ℕ → ℚ → ℤ
  | 0, _ => 0
  | f + 1, q => if q < 10 then 0 else log10GeOne f (q / 10) + 1

/-- Fuel-driven floor of the base-10 logarithm of a rational strictly
between 0 and 1. -/
def log10LtOne : ℕ → ℚ → ℤ
  | 0, _ => -1
  | f + 1, q => if 1 ≤ q * 10 then -1 else log10LtOne f (q * 10) - 1

/-- Floor of the base-10 logarithm of a positive rational.  The fuel 400
covers the full decimal-exponent range of an IEEE double. -/
def ratLog10 (q : ℚ) : ℤ :=
  if 1 ≤ q then log10GeOne 400 q else log10LtOne 400 q

/-- Round a rational to the nearest integer, ties upward. -/
def ratRound (q : ℚ) : ℤ := Rat.floor (q + 1 / 2)

/-- `%g` rendering of a positive rational, per the C `printf` `%g`
conversion with the default precision of 6 significant digits. -/
def formatGPos (q : ℚ) : String :=
  let e0 : ℤ := ratLog10 q
  let m0 : ℤ := ratRound (q * pow10z (5 - e0))
  let me : ℤ × ℤ := if m0 ≥ 10 ^ 6 then (m0 / 10, e0 + 1) else (m0, e0)
  let m : ℤ := me.1
  let e : ℤ := me.2
  let digits := natDigits m.toNat
  if -4 ≤ e ∧ e < 6 then
    if 0 ≤ e then
      let ipart := digits.take (e.toNat + 1)
      let fpart := stripTrailZeros (digits.drop (e.toNat + 1))
      String.mk (ipart ++ (if fpart = [] then [] else '.' :: fpart))
    else
      String.mk ('0' :: '.' :: (List.replicate (-e - 1).toNat '0' ++ stripTrailZeros digits))
  else
    let rest := stripTrailZeros (digits.drop 1)
    let mant := digits.take 1 ++ (if rest = [] then [] else '.' :: rest)
    let esign := if e < 0 then '-' else '+'
    let eabs := e.natAbs
    let edigits := if eabs < 10 then '0' :: natDigits eabs else natDigits eabs
    String.mk (mant ++ ('e' :: esign :: edigits))

/-- `%g` rendering of a modelled double. -/
def formatG : Dbl → String
  | .nan => "nan"
  | .fin q => if q = 0 then "0" else if q < 0 then "-" ++ formatGPos (-q) else formatGPos q

/-- `printValue` from value.c: booleans as `true`/`false`, nil as `nil`,
numbers via `printf("%g", ...)`. -/
def printValue : Value → String
  | .bool b => if b then "true" else "false"
  | .nil => "nil"
  | .number d => formatG d

/-! ## Decimal denotation (spec side, and model of `strtod`)

`decParse` gives the exact rational denoted by a decimal numeral of the
form `[-] digits [. digits] [(e|E) [+|-] digits]`, or `none` when the
character list is not entirely such a numeral.  It is the reference
meaning of a printed numeral used to state round-trip properties, and —
restricted to the scanner's number lexemes `digits [. digits]` — a model
of the C `strtod` used by the compiler (exact, with no binary rounding,
which is faithful for the small literals evaluated in this file). -/

/-- Whether a character is a decimal digit. -/
def isDigitC (c : Char) : Bool := decide ('0' ≤ c ∧ c ≤ '9')

/-- The numeric value of a decimal digit character. -/
def digitVal (c : Char) : ℕ := c.toNat - 48

/-- Consume leading digits, returning the accumulated value, the number
of digits consumed, and the rest. -/
def parseDigits : List Char → ℕ → ℕ → ℕ × ℕ × List Char
  | c :: cs, acc, cnt =>
    if isDigitC c then parseDigits cs (acc * 10 + digitVal c) (cnt + 1) else (acc, cnt, c :: cs)
  | [], acc, cnt => (acc, cnt, [])

/-- Parse the optional exponent suffix `(e|E) [+|-] digits`; `none` on a
malformed suffix or trailing characters. -/
def parseExpPart : List Char → Option ℤ
  | [] => some 0
  | c :: cs =>
    if c = 'e' ∨ c = 'E' then
      let se : Bool × List Char :=
        match cs with
        | '+' :: rest => (false, rest)
        | '-' :: rest => (true, rest)
        | rest => (false, rest)
      let pd := parseDigits se.2 0 0
      if pd.2.1 = 0 ∨ pd.2.2 ≠ [] then none
      else some (if se.1 then -(pd.1 : ℤ) else (pd.1 : ℤ))
    else none

/-- The exact rational denoted by a decimal numeral, or `none`. -/
def decParse (cs : List Char) : Option ℚ :=
  let sgn : Bool × List Char :=
    match cs with
    | '-' :: rest => (true, rest)
    | rest => (false, rest)
  let ip := parseDigits sgn.2 0 0
  if ip.2.1 = 0 then none
  else
    let fr : ℕ × ℕ × List Char :=
      match ip.2.2 with
      | '.' :: rest => parseDigits rest 0 0
      | rest => (0, 0, rest)
    match parseExpPart fr.2.2 with
    | none => none
    | some ex =>
      let mag : ℚ := ((ip.1 : ℚ) + (fr.1 : ℚ) / (10 : ℚ) ^ fr.2.1) * pow10z ex
      some (if sgn.1 then -mag else mag)

/-- Model of the C `strtod` restricted to the scanner's number lexemes. -/
def strtodModel (cs : List Char) : ℚ := (decParse cs).getD 0

/-! ## Scanner (scanner.h / scanner.c)

The token kinds of scanner.h (the header is not among the provided
sources; the enumeration is modelled from the closed set of kinds listed
in the spec).  The C scanner works on a NUL-terminated string through the
`start` and `current` character pointers; here a pointer into the source
is modelled as the suffix of the source it points at, end-of-source being
the empty suffix (the NUL sentinel), and the pointer difference
`current - start` used by `makeToken` is carried incrementally in `len`.
The C loops (whitespace skipping and the identifier/number/string
bodies) consume characters one at a time and are modelled by structural
recursion over the remaining suffix; the `//`-comment inner loop is fused
into the whitespace loop as a mode flag, consuming exactly the same
characters as the two nested C loops.
-/

/-- Token kinds from scanner.h. -/
inductive TokenType where
  | LEFT_PAREN | RIGHT_PAREN | LEFT_BRACE | RIGHT_BRACE
  | COMMA | DOT | MINUS | PLUS | SEMICOLON | SLASH | STAR
  | BANG | BANG_EQUAL | EQUAL | EQUAL_EQUAL
  | GREATER | GREATER_EQUAL | LESS | LESS_EQUAL
  | IDENTIFIER | STRING | NUMBER
  | AND | CLASS | ELSE | FALSE | FOR | FUN | IF | NIL | OR
  | PRINT | RETURN | SUPER | THIS | TRUE | VAR | WHILE
  | ERROR | EOF
deriving DecidableEq, Repr

/-- A token: kind, source slice (the characters between `start` and
`current`; for error tokens the message characters), and line. -/
structure Token where
  type : TokenType
  text : List Char
  line : ℕ
deriving DecidableEq, Repr

/-- The scanner state: the `start` and `current` pointers (as source
suffixes), the pointer difference `current - start`, and the line
counter of scanner.c. -/
structure ScannerState where
  start : List Char
  current : List Char
  len : ℕ
  line : ℕ
deriving DecidableEq, Repr

/-- `initScanner` from scanner.c. -/
def initScanner (source : List Char) : ScannerState :=
  { start := source, current := source, len := 0, line := 1 }

/-- `isAlpha` from scanner.c. -/
def isAlphaC (c : Char) : Bool :=
  decide (('a' ≤ c ∧ c ≤ 'z') ∨ ('A' ≤ c ∧ c ≤ 'Z') ∨ c = '_')

/-- `isAtEnd` from scanner.c: the current pointer rests on the
terminating NUL. -/
def isAtEndS (st : ScannerState) : Bool := st.current.isEmpty

/-- `peek` from scanner.c; at the end the NUL sentinel is read. -/
def peekS (st : ScannerState) : Char := st.current.headD '\x00'

/-- `peekNext` from scanner.c. -/
def peekNextS (st : ScannerState) : Char :=
  if isAtEndS st then '\x00' else (st.current.drop 1).headD '\x00'

/-- `advance` from scanner.c: return the current character and move on. -/
def advanceS (st : ScannerState) : Char × ScannerState :=
  (st.current.headD '\x00',
   { st with current := st.current.drop 1, len := st.len + 1 })

/-- `match` from scanner.c (renamed: `match` is reserved in Lean). -/
def matchCharS (expected : Char) (st : ScannerState) : Bool × ScannerState :=
  if isAtEndS st then (false, st)
  else if st.current.headD '\x00' ≠ expected then (false, st)
  else (true, { st with current := st.current.drop 1, len := st.len + 1 })

/-- `makeToken` from scanner.c: the slice is the `current - start`
characters from `start`. -/
def makeToken (type : TokenType) (st : ScannerState) : Token :=
  { type := type, text := st.start.take st.len, line := st.line }

/-- `errorToken` from scanner.c: the token text is the static message. -/
def errorTokenS (message : List Char) (st : ScannerState) : Token :=
  { type := .ERROR, text := message, line := st.line }

/-- `skipWhitespace` from scanner.c, on the remaining suffix and line
counter: spaces, tabs and carriage returns consume silently, a line feed
increments the line counter, and `//` (the `inComment` flag) consumes to
the end of the line; any other character stops the loop. -/
def skipWsGo : List Char → ℕ → Bool → List Char × ℕ
  | [], line, _ => ([], line)
  | c :: rest, line, true =>
    if c = '\n' then skipWsGo rest (line + 1) false
    else skipWsGo rest line true
  | c :: rest, line, false =>
    if c = ' ' ∨ c = '\r' ∨ c = '\t' then skipWsGo rest line false
    else if c = '\n' then skipWsGo rest (line + 1) false
    else if c = '/' then
      if rest.headD '\x00' = '/' then skipWsGo rest line true
      else (c :: rest, line)
    else (c :: rest, line)

/-- `skipWhitespace` on the scanner state. -/
def skipWsS (st : ScannerState) : ScannerState :=
  let r := skipWsGo st.current st.line false
  { st with current := r.1, line := r.2 }

/-- `checkKeyword` from scanner.c, phrased on the identifier lexeme (the
characters between `start` and `current`): the lexeme is the keyword
exactly when its length is `start + length` and the `length` characters
from offset `start` are `rest`. -/
def checkKeyword (lexeme : List Char) (start len : ℕ) (rest : List Char)
    (type : TokenType) : TokenType :=
  if lexeme.length = start + len ∧ lexeme.drop start = rest then type
  else .IDENTIFIER

/-- `identifierType` from scanner.c: the keyword trie over the lexeme.
Reads of `scanner.start[i]` are lexeme indexing (with the NUL sentinel
for an empty lexeme, which the scanner never produces). -/
def identifierType (lexeme : List Char) : TokenType :=
  if lexeme.getD 0 '\x00' = 'a' then checkKeyword lexeme 1 2 ['n', 'd'] .AND
  else if lexeme.getD 0 '\x00' = 'c' then checkKeyword lexeme 1 4 ['l', 'a', 's', 's'] .CLASS
  else if lexeme.getD 0 '\x00' = 'e' then checkKeyword lexeme 1 3 ['l', 's', 'e'] .ELSE
  else if lexeme.getD 0 '\x00' = 'f' then
    if 1 < lexeme.length then
      if lexeme.getD 1 '\x00' = 'a' then checkKeyword lexeme 2 3 ['l', 's', 'e'] .FALSE
      else if lexeme.getD 1 '\x00' = 'o' then checkKeyword lexeme 2 1 ['r'] .FOR
      else if lexeme.getD 1 '\x00' = 'u' then checkKeyword lexeme 2 1 ['n'] .FUN
      else .IDENTIFIER
    else .IDENTIFIER
  else if lexeme.getD 0 '\x00' = 'i' then checkKeyword lexeme 1 1 ['f'] .IF
  else if lexeme.getD 0 '\x00' = 'n' then checkKeyword lexeme 1 2 ['i', 'l'] .NIL
  else if lexeme.getD 0 '\x00' = 'o' then checkKeyword lexeme 1 1 ['r'] .OR
  else if lexeme.getD 0 '\x00' = 'p' then checkKeyword lexeme 1 4 ['r', 'i', 'n', 't'] .PRINT
  else if lexeme.getD 0 '\x00' = 'r' then checkKeyword lexeme 1 5 ['e', 't', 'u', 'r', 'n'] .RETURN
  else if lexeme.getD 0 '\x00' = 's' then checkKeyword lexeme 1 4 ['u', 'p', 'e', 'r'] .SUPER
  else if lexeme.getD 0 '\x00' = 't' then
    if 1 < lexeme.length then
      if lexeme.getD 1 '\x00' = 'h' then checkKeyword lexeme 2 2 ['i', 's'] .THIS
      else if lexeme.getD 1 '\x00' = 'r' then checkKeyword lexeme 2 2 ['u', 'e'] .TRUE
      else .IDENTIFIER
    else .IDENTIFIER
  else if lexeme.getD 0 '\x00' = 'v' then checkKeyword lexeme 1 2 ['a', 'r'] .VAR
  else if lexeme.getD 0 '\x00' = 'w' then checkKeyword lexeme 1 4 ['h', 'i', 'l', 'e'] .WHILE
  else .IDENTIFIER

/-- The identifier-consuming loop of `identifier`, on the remaining
suffix and the running token length. -/
def identLoopGo : List Char → ℕ → List Char × ℕ
  | [], len => ([], len)
  | c :: rest, len =>
    if isAlphaC c ∨ isDigitC c then identLoopGo rest (len + 1) else (c :: rest, len)

/-- The lexeme between `start` and `current`. -/
def lexemeOf (st : ScannerState) : List Char := st.start.take st.len

/-- `identifier` from scanner.c. -/
def identifierS (st : ScannerState) : Token × ScannerState :=
  let r := identLoopGo st.current st.len
  let st := { st with current := r.1, len := r.2 }
  (makeToken (identifierType (lexemeOf st)) st, st)

/-- The digit-consuming loop of `number`. -/
def digitLoopGo : List Char → ℕ → List Char × ℕ
  | [], len => ([], len)
  | c :: rest, len =>
    if isDigitC c then digitLoopGo rest (len + 1) else (c :: rest, len)

/-- `number` from scanner.c. -/
def numberS (st : ScannerState) : Token × ScannerState :=
  let r := digitLoopGo st.current st.len
  let st := { st with current := r.1, len := r.2 }
  let st :=
    if peekS st = '.' ∧ isDigitC (peekNextS st) then
      let st := (advanceS st).2
      let r := digitLoopGo st.current st.len
      { st with current := r.1, len := r.2 }
    else st
  (makeToken .NUMBER st, st)

/-- The body-consuming loop of `string`, on the remaining suffix, the
running token length and the line counter. -/
def stringLoopGo : List Char → ℕ → ℕ → List Char × ℕ × ℕ
  | [], len, line => ([], len, line)
  | c :: rest, len, line =>
    if c = '"' then (c :: rest, len, line)
    else if c = '\n' then stringLoopGo rest (len + 1) (line + 1)
    else stringLoopGo rest (len + 1) line

/-- The static message of the unterminated-string error token. -/
def msgUnterminated : List Char := "Unterminated string.".toList

/-- `string` from scanner.c, faithfully including its inverted
end-of-source test: after the body loop the function returns the
unterminated-string ERROR token when it is NOT at the end (that is, when
the closing quote is present), and otherwise advances past the sentinel
and returns a STRING token. -/
def stringS (st : ScannerState) : Token × ScannerState :=
  let r := stringLoopGo st.current st.len st.line
  let st := { st with current := r.1, len := r.2.1, line := r.2.2 }
  if isAtEndS st = false then (errorTokenS msgUnterminated st, st)
  else
    let st := (advanceS st).2
    (makeToken .STRING st, st)

/-- The static message of the unexpected-character error token. -/
def msgUnexpected : List Char := "Unexpected character.".toList

/-- `scanToken` from scanner.c. -/
def scanToken (st0 : ScannerState) : Token × ScannerState :=
  let st := skipWsS st0
  let st := { st with start := st.current, len := 0 }
  if isAtEndS st then (makeToken .EOF st, st)
  else
    let cs := advanceS st
    let c := cs.1
    let st := cs.2
    if isAlphaC c then identifierS st
    else if isDigitC c then numberS st
    else if c = '(' then (makeToken .LEFT_PAREN st, st)
    else if c = ')' then (makeToken .RIGHT_PAREN st, st)
    else if c = '{' then (makeToken .LEFT_BRACE st, st)
    else if c = '}' then (makeToken .RIGHT_BRACE st, st)
    else if c = ';' then (makeToken .SEMICOLON st, st)
    else if c = ',' then (makeToken .COMMA st, st)
    else if c = '.' then (makeToken .DOT st, st)
    else if c = '-' then (makeToken .MINUS st, st)
    else if c = '+' then (makeToken .PLUS st, st)
    else if c = '/' then (makeToken .SLASH st, st)
    else if c = '*' then (makeToken .STAR st, st)
    else if c = '!' then
      let ms := matchCharS '=' st
      (makeToken (if ms.1 then .BANG_EQUAL else .BANG) ms.2, ms.2)
    else if c = '=' then
      let ms := matchCharS '=' st
      (makeToken (if ms.1 then .EQUAL_EQUAL else .EQUAL) ms.2, ms.2)
    else if c = '<' then
      let ms := matchCharS '=' st
      (makeToken (if ms.1 then .LESS_EQUAL else .LESS) ms.2, ms.2)
    else if c = '>' then
      let ms := matchCharS '=' st
      (makeToken (if ms.1 then .GREATER_EQUAL else .GREATER) ms.2, ms.2)
    else if c = '"' then stringS st
    else (errorTokenS msgUnexpected st, st)

/-! ## Chunk (chunk.h / chunk.c)

The opcode numbering follows the instruction table of the spec (§4.4.1);
chunk.h itself is not among the provided sources.  The dynamic arrays of
the C chunk are modelled as lists (the capacity bookkeeping and amortized
doubling of memory.c have no observable effect on code, lines or
constants and are abstracted away).
-/

def OP_CONSTANT : ℕ := 0

def OP_NIL : ℕ := 1

def OP_TRUE : ℕ := 2

def OP_FALSE : ℕ := 3

def OP_EQUAL : ℕ := 4

def OP_GREATER : ℕ := 5

def OP_LESS : ℕ := 6

def OP_ADD : ℕ := 7

def OP_SUBTRACT : ℕ := 8

def OP_MULTIPLY : ℕ := 9

def OP_DIVIDE : ℕ := 10

def OP_NOT : ℕ := 11

def OP_NEGATE : ℕ := 12

def OP_RETURN : ℕ := 13

/-- A chunk: bytecode, the parallel line vector, and the constant pool. -/
structure Chunk where
  code : List ℕ
  lines : List ℕ
  constants : List Value
deriving DecidableEq, Repr

/-- `initChunk` from chunk.c. -/
def initChunk : Chunk := { code := [], lines := [], constants := [] }

/-- `writeChunk` from chunk.c: append one byte to `code` and the line to
`lines`. -/
def writeChunk (c : Chunk) (byte : ℕ) (line : ℕ) : Chunk :=
  { c with code := c.code ++ [byte], lines := c.lines ++ [line] }

/-- `addConstant` from chunk.c: append the value and return its zero-based
index (the new count minus one). -/
def addConstant (c : Chunk) (v : Value) : Chunk × ℕ :=
  ({ c with constants := c.constants ++ [v] }, c.constants.length)

/-! ## Compiler (compiler.c)

The process-wide `parser`, `scanner` and `compilingChunk` globals are
bundled into one `CompilerState`; the error stream is the `errOutput`
string.  The mutually recursive Pratt-parser functions are driven by a
fuel argument that strictly decreases across every mutual call; fuel
exhaustion returns the state unchanged (all concrete evaluations in this
file supply ample fuel, and the universally quantified theorems hold for
every fuel).
-/

/-- The precedence levels of compiler.c, numbered by enumeration order. -/
def PREC_NONE : ℕ := 0

def PREC_ASSIGNMENT : ℕ := 1

def PREC_OR : ℕ := 2

def PREC_AND : ℕ := 3

def PREC_EQUALITY : ℕ := 4

def PREC_COMPARISON : ℕ := 5

def PREC_TERM : ℕ := 6

def PREC_FACTOR : ℕ := 7

def PREC_UNARY : ℕ := 8

def PREC_CALL : ℕ := 9

def PREC_PRIMARY : ℕ := 10

/-- The parse handlers of compiler.c, as tags (the C rule table stores
function pointers; the dispatcher below performs the call). -/
inductive HandlerTag where
  | groupingT | unaryT | binaryT | numberT | literalT
deriving DecidableEq, Repr

/-- One row of the C `rules` table. -/
structure ParseRule where
  prefixFn : Option HandlerTag
  infixFn : Option HandlerTag
  precedence : ℕ
deriving DecidableEq, Repr

/-- `getRule` from compiler.c: the `rules` table. -/
def getRule : TokenType → ParseRule
  | .LEFT_PAREN => ⟨some .groupingT, none, PREC_NONE⟩
  | .MINUS => ⟨some .unaryT, some .binaryT, PREC_TERM⟩
  | .PLUS => ⟨none, some .binaryT, PREC_TERM⟩
  | .SLASH => ⟨none, some .binaryT, PREC_FACTOR⟩
  | .STAR => ⟨none, some .binaryT, PREC_FACTOR⟩
  | .BANG => ⟨some .unaryT, none, PREC_NONE⟩
  | .BANG_EQUAL => ⟨none, some .binaryT, PREC_EQUALITY⟩
  | .EQUAL_EQUAL => ⟨none, some .binaryT, PREC_EQUALITY⟩
  | .GREATER => ⟨none, some .binaryT, PREC_COMPARISON⟩
  | .GREATER_EQUAL => ⟨none, some .binaryT, PREC_COMPARISON⟩
  | .LESS => ⟨none, some .binaryT, PREC_COMPARISON⟩
  | .LESS_EQUAL => ⟨none, some .binaryT, PREC_COMPARISON⟩
  | .NUMBER => ⟨some .numberT, none, PREC_NONE⟩
  | .FALSE => ⟨some .literalT, none, PREC_NONE⟩
  | .NIL => ⟨some .literalT, none, PREC_NONE⟩
  | .TRUE => ⟨some .literalT, none, PREC_NONE⟩
  | _ => ⟨none, none, PREC_NONE⟩

/-- The bundled compiler state: the `parser` and `scanner` globals, the
chunk under construction, and the error stream. -/
structure CompilerState where
  scanner : ScannerState
  current : Token
  previous : Token
  hadError : Bool
  panicMode : Bool
  chunk : Chunk
  errOutput : String
deriving DecidableEq, Repr

/-- The `" at end"` / empty / `" at '<lexeme>'"` location part of a
compile-error report. -/
def errorLoc (tok : Token) : String :=
  if tok.type = .EOF then " at end"
  else if tok.type = .ERROR then ""
  else " at '" ++ String.mk tok.text ++ "'"

/-- The full text written to the error stream by `errorAt`. -/
def renderError (tok : Token) (message : String) : String :=
  "[line " ++ natStr tok.line ++ "] Error" ++ errorLoc tok ++ ": " ++ message ++ "\n"

/-- `errorAt` from compiler.c: suppressed in panic mode; otherwise sets
panic mode, writes the report, and sets the sticky `hadError`. -/
def errorAt (tok : Token) (message : String) (st : CompilerState) : CompilerState :=
  if st.panicMode then st
  else
    { st with panicMode := true, hadError := true,
              errOutput := st.errOutput ++ renderError tok message }

/-- `error` from compiler.c: report at the previous token. -/
def errorP (message : String) (st : CompilerState) : CompilerState :=
  errorAt st.previous message st

/-- `errorAtCurrent` from compiler.c. -/
def errorAtCurrent (message : String) (st : CompilerState) : CompilerState :=
  errorAt st.current message st

/-- The error-token-skipping loop of the parser's `advance`: scan a
token, and while it is an ERROR token report it and scan again.  The
loop is driven by fuel consumed only on the ERROR path; every ERROR
token consumes at least one source character, so the fuel supplied by
`advanceP` is always sufficient. -/
def advanceLoop : ℕ → CompilerState → CompilerState
  | fuel, st =>
    let ts := scanToken st.scanner
    let st := { st with scanner := ts.2, current := ts.1 }
    if st.current.type = .ERROR then
      match fuel with
      | 0 => st
      | f + 1 => advanceLoop f (errorAtCurrent (String.mk st.current.text) st)
    else st

/-- `advance` from compiler.c. -/
def advanceP (st : CompilerState) : CompilerState :=
  advanceLoop (st.scanner.current.length + 1) { st with previous := st.current }

/-- `consume` from compiler.c. -/
def consume (type : TokenType) (message : String) (st : CompilerState) : CompilerState :=
  if st.current.type = type then advanceP st else errorAtCurrent message st

/-- `emitByte` from compiler.c: write to the chunk at the previous
token's line. -/
def emitByte (byte : ℕ) (st : CompilerState) : CompilerState :=
  { st with chunk := writeChunk st.chunk byte st.previous.line }

/-- `emitBytes` from compiler.c. -/
def emitBytes (b1 b2 : ℕ) (st : CompilerState) : CompilerState :=
  emitByte b2 (emitByte b1 st)

/-- The message reported when the constant pool index overflows a byte. -/
def msgTooManyConstants : String := "Too many constants in one chunk."

/-- `makeConstant` from compiler.c: add the constant (the pool grows
first), then reject indices above `UINT8_MAX` with an error and index 0. -/
def makeConstant (v : Value) (st : CompilerState) : CompilerState × ℕ :=
  let ci := addConstant st.chunk v
  let st := { st with chunk := ci.1 }
  if 255 < ci.2 then (errorP msgTooManyConstants st, 0)
  else (st, ci.2)

/-- `emitConstant` from compiler.c. -/
def emitConstant (v : Value) (st : CompilerState) : CompilerState :=
  let si := makeConstant v st
  emitBytes OP_CONSTANT si.2 si.1

/-- `number` from compiler.c: convert the previous token's text with
`strtod` and emit it as a constant. -/
def numberH (st : CompilerState) : CompilerState :=
  emitConstant (Value.number (Dbl.fin (strtodModel st.previous.text))) st

/-- `literal` from compiler.c. -/
def literalH (st : CompilerState) : CompilerState :=
  match st.previous.type with
  | .FALSE => emitByte OP_FALSE st
  | .NIL => emitByte OP_NIL st
  | .TRUE => emitByte OP_TRUE st
  | _ => st

/-- The message reported when a prefix position holds no expression. -/
def msgExpectExpression : String := "Expect expression."

/-- The message reported when a grouping lacks its closing parenthesis. -/
def msgExpectRightParen : String := "Expect ')' after expression."

mutual

/-- `parsePrecedence` from compiler.c: advance, run the previous token's
prefix handler (or report "Expect expression."), then fold infix handlers
while the current token's infix precedence is at least the requested
one. -/
def parsePrecedence : ℕ → ℕ → CompilerState → CompilerState
  | 0, _, st => st
  | fuel + 1, prec, st =>
    let st := advanceP st
    match (getRule st.previous.type).prefixFn with
    | none => errorP msgExpectExpression st
    | some tag =>
      let st :=
        match tag with
        | .groupingT => grouping fuel st
        | .unaryT => unary fuel st
        | .binaryT => binary fuel st
        | .numberT => numberH st
        | .literalT => literalH st
      infixLoop fuel prec st

/-- The infix `while` loop of `parsePrecedence`. -/
def infixLoop : ℕ → ℕ → CompilerState → CompilerState
  | 0, _, st => st
  | fuel + 1, prec, st =>
    if prec ≤ (getRule st.current.type).precedence then
      let st := advanceP st
      let st :=
        match (getRule st.previous.type).infixFn with
        | some .groupingT => grouping fuel st
        | some .unaryT => unary fuel st
        | some .binaryT => binary fuel st
        | some .numberT => numberH st
        | some .literalT => literalH st
        | none => st
      infixLoop fuel prec st
    else st

/-- `binary` from compiler.c: remember the operator, parse the right
operand one precedence level higher, then emit the operator's opcode
sequence. -/
def binary : ℕ → CompilerState → CompilerState
  | 0, st => st
  | fuel + 1, st =>
    let operatorType := st.previous.type
    let rule := getRule operatorType
    let st := parsePrecedence fuel (rule.precedence + 1) st
    match operatorType with
    | .BANG_EQUAL => emitBytes OP_EQUAL OP_NOT st
    | .EQUAL_EQUAL => emitByte OP_EQUAL st
    | .GREATER => emitByte OP_GREATER st
    | .GREATER_EQUAL => emitBytes OP_LESS OP_NOT st
    | .LESS => emitByte OP_LESS st
    | .LESS_EQUAL => emitBytes OP_GREATER OP_NOT st
    | .PLUS => emitByte OP_ADD st
    | .MINUS => emitByte OP_SUBTRACT st
    | .STAR => emitByte OP_MULTIPLY st
    | .SLASH => emitByte OP_DIVIDE st
    | _ => st

/-- `unary` from compiler.c. -/
def unary : ℕ → CompilerState → CompilerState
  | 0, st => st
  | fuel + 1, st =>
    let operatorType := st.previous.type
    let st := parsePrecedence fuel PREC_UNARY st
    match operatorType with
    | .BANG => emitByte OP_NOT st
    | .MINUS => emitByte OP_NEGATE st
    | _ => st

/-- `grouping` from compiler.c: `expression()` then the closing paren
(`expression` is `parsePrecedence(PREC_ASSIGNMENT)`). -/
def grouping : ℕ → CompilerState → CompilerState
  | 0, st => st
  | fuel + 1, st =>
    consume .RIGHT_PAREN msgExpectRightParen (parsePrecedence fuel PREC_ASSIGNMENT st)

end

/-- `expression` from compiler.c. -/
def expression (fuel : ℕ) (st : CompilerState) : CompilerState :=
  parsePrecedence fuel PREC_ASSIGNMENT st

/-- The message reported at trailing tokens after the expression. -/
def msgExpectEnd : String := "Expect end of expression."

/-- A placeholder token for the parser fields before the first advance
(the C globals start uninitialized; both fields are overwritten before
any use). -/
def dummyToken : Token := { type := .ERROR, text := [], line := 0 }

/-- `compile` from compiler.c: prime the parser, parse one expression,
require EOF, emit RETURN (`endCompiler`), and return success as the
negation of `hadError`. -/
def compile (fuel : ℕ) (source : List Char) : CompilerState × Bool :=
  let st : CompilerState :=
    { scanner := initScanner source, current := dummyToken, previous := dummyToken,
      hadError := false, panicMode := false, chunk := initChunk, errOutput := "" }
  let st := advanceP st
  let st := expression fuel st
  let st := consume .EOF msgExpectEnd st
  let st := emitByte OP_RETURN st
  (st, !st.hadError)

/-! ## Virtual machine (vm.h / vm.c)

The VM state bundles the chunk reference, instruction pointer (an index
into `code`), the operand stack (head is the stack top), and the standard
output and error streams as accumulated strings.  `run` is driven by
fuel, one unit per dispatch-loop iteration; out of fuel it reports no
result (`none`).  Situations that are undefined in the C source — reading
an operand from an empty or too-short stack, or a constant index outside
the pool — are modelled as a stuck `(none, st)`; no claim exercises them.
The `BINARY_OP` macro is expanded per opcode exactly as the C
preprocessor does.
-/

/-- The interpreter statuses from vm.h. -/
inductive InterpretResult where
  | INTERPRET_OK | INTERPRET_COMPILE_ERROR | INTERPRET_RUNTIME_ERROR
deriving DecidableEq, Repr

/-- The VM state. -/
structure VMState where
  chunk : Chunk
  ip : ℕ
  stack : List Value
  output : String
  errOutput : String
deriving DecidableEq, Repr

/-- `runtimeError` from vm.c: write the message and the
`[line N] in script` trailer (the line of the instruction at `ip - 1`),
then reset the stack to empty. -/
def runtimeErrorV (message : String) (st : VMState) : VMState :=
  let instruction := st.ip - 1
  let line := st.chunk.lines.getD instruction 0
  { st with stack := [],
            errOutput := st.errOutput ++ message ++ "\n" ++
              "[line " ++ natStr line ++ "] in script\n" }

/-- The message reported by the binary numeric opcodes on a non-number
operand. -/
def msgOperandsNumbers : String := "Operands must be numbers."

/-- The message reported by NEGATE on a non-number operand. -/
def msgOperandNumber : String := "Operand must be a number."

/-- `isFalsey` from vm.c: `IS_NIL(value) || (IS_BOOL(value) &&
!AS_BOOL(value))`. -/
def isFalsey : Value → Bool
  | .nil => true
  | .bool b => !b
  | .number _ => false

/-- `run` from vm.c: the dispatch loop.  Each iteration reads the byte at
`ip` (advancing it), dispatches, and loops; `RETURN` prints the popped
value and stops with OK; a failed numeric type check reports a runtime
error and stops with RUNTIME_ERROR.  A byte matching no opcode falls
through the C switch and loops. -/
def run : ℕ → VMState → Option InterpretResult × VMState
  | 0, st => (none, st)
  | fuel + 1, st0 =>
    match st0.chunk.code[st0.ip]? with
    | none => (none, st0)
    | some instruction =>
      let st := { st0 with ip := st0.ip + 1 }
      if instruction = OP_CONSTANT then
        match st.chunk.code[st.ip]? with
        | none => (none, st)
        | some index =>
          let st := { st with ip := st.ip + 1 }
          match st.chunk.constants[index]? with
          | none => (none, st)
          | some c => run fuel { st with stack := c :: st.stack }
      else if instruction = OP_NIL then
        run fuel { st with stack := Value.nil :: st.stack }
      else if instruction = OP_TRUE then
        run fuel { st with stack := Value.bool true :: st.stack }
      else if instruction = OP_FALSE then
        run fuel { st with stack := Value.bool false :: st.stack }
      else if instruction = OP_EQUAL then
        match st.stack with
        | b :: a :: rest =>
          run fuel { st with stack := Value.bool (valuesEqual a b) :: rest }
        | _ => (none, st)
      else if instruction = OP_GREATER then
        match st.stack with
        | vb :: va :: rest =>
          match va, vb with
          | .number a, .number b =>
            run fuel { st with stack := Value.bool (dblGt a b) :: rest }
          | _, _ => (some .INTERPRET_RUNTIME_ERROR, runtimeErrorV msgOperandsNumbers st)
        | _ => (none, st)
      else if instruction = OP_LESS then
        match st.stack with
        | vb :: va :: rest =>
          match va, vb with
          | .number a, .number b =>
            run fuel { st with stack := Value.bool (dblLt a b) :: rest }
          | _, _ => (some .INTERPRET_RUNTIME_ERROR, runtimeErrorV msgOperandsNumbers st)
        | _ => (none, st)
      else if instruction = OP_ADD then
        match st.stack with
        | vb :: va :: rest =>
          match va, vb with
          | .number a, .number b =>
            run fuel { st with stack := Value.number (dblAdd a b) :: rest }
          | _, _ => (some .INTERPRET_RUNTIME_ERROR, runtimeErrorV msgOperandsNumbers st)
        | _ => (none, st)
      else if instruction = OP_SUBTRACT then
        match st.stack with
        | vb :: va :: rest =>
          match va, vb with
          | .number a, .number b =>
            run fuel { st with stack := Value.number (dblSub a b) :: rest }
          | _, _ => (some .INTERPRET_RUNTIME_ERROR, runtimeErrorV msgOperandsNumbers st)
        | _ => (none, st)
      else if instruction = OP_MULTIPLY then
        match st.stack with
        | vb :: va :: rest =>
          match va, vb with
          | .number a, .number b =>
            run fuel { st with stack := Value.number (dblMul a b) :: rest }
          | _, _ => (some .INTERPRET_RUNTIME_ERROR, runtimeErrorV msgOperandsNumbers st)
        | _ => (none, st)
      else if instruction = OP_DIVIDE then
        match st.stack with
        | vb :: va :: rest =>
          match va, vb with
          | .number a, .number b =>
            run fuel { st with stack := Value.number (dblDiv a b) :: rest }
          | _, _ => (some .INTERPRET_RUNTIME_ERROR, runtimeErrorV msgOperandsNumbers st)
        | _ => (none, st)
      else if instruction = OP_NOT then
        match st.stack with
        | v :: rest =>
          run fuel { st with stack := Value.bool (isFalsey v) :: rest }
        | _ => (none, st)
      else if instruction = OP_NEGATE then
        match st.stack with
        | v :: rest =>
          match v with
          | .number a =>
            run fuel { st with stack := Value.number (dblNeg a) :: rest }
          | _ => (some .INTERPRET_RUNTIME_ERROR, runtimeErrorV msgOperandNumber st)
        | _ => (none, st)
      else if instruction = OP_RETURN then
        match st.stack with
        | v :: rest =>
          (some .INTERPRET_OK,
            { st with stack := rest, output := st.output ++ printValue v ++ "\n" })
        | _ => (none, st)
      else run fuel st

/-! ## Spec-side definitions

Definitions in this section transcribe the specification's words (not the
C source); the theorems below compare the source-derived definitions
against them.
-/

/-- The numeric binary opcodes (spec §4.4.1). -/
def numericOps : List ℕ :=
  [OP_ADD, OP_SUBTRACT, OP_MULTIPLY, OP_DIVIDE, OP_GREATER, OP_LESS]

/-- Spec-side result of a numeric binary opcode on left operand `a` and
right operand `b`: the host result of `a op b`, a Boolean for
GREATER/LESS and a Number otherwise. -/
def numericOpResult (op : ℕ) (a b : Dbl) : Value :=
  if op = OP_ADD then .number (dblAdd a b)
  else if op = OP_SUBTRACT then .number (dblSub a b)
  else if op = OP_MULTIPLY then .number (dblMul a b)
  else if op = OP_DIVIDE then .number (dblDiv a b)
  else if op = OP_GREATER then .bool (dblGt a b)
  else .bool (dblLt a b)

/-- The binary operator tokens (spec §4.3.2). -/
def binaryOperators : List TokenType :=
  [.PLUS, .MINUS, .STAR, .SLASH, .BANG_EQUAL, .EQUAL_EQUAL,
   .GREATER, .GREATER_EQUAL, .LESS, .LESS_EQUAL]

/-- Spec-side opcode emission map for the binary operators (§4.3.2):
`+ → ADD`, `- → SUBTRACT`, `* → MULTIPLY`, `/ → DIVIDE`, `== → EQUAL`,
`!= → EQUAL,NOT`, `> → GREATER`, `>= → LESS,NOT`, `< → LESS`,
`<= → GREATER,NOT`. -/
def specOpcodes : TokenType → List ℕ
  | .PLUS => [OP_ADD]
  | .MINUS => [OP_SUBTRACT]
  | .STAR => [OP_MULTIPLY]
  | .SLASH => [OP_DIVIDE]
  | .EQUAL_EQUAL => [OP_EQUAL]
  | .BANG_EQUAL => [OP_EQUAL, OP_NOT]
  | .GREATER => [OP_GREATER]
  | .GREATER_EQUAL => [OP_LESS, OP_NOT]
  | .LESS => [OP_LESS]
  | .LESS_EQUAL => [OP_GREATER, OP_NOT]
  | _ => []

/-- Spec-side infix precedence table (§4.3.2): `+ -` at TERM, `* /` at
FACTOR, `== !=` at EQUALITY, `> >= < <=` at COMPARISON. -/
def specInfixPrec : TokenType → ℕ
  | .PLUS => PREC_TERM
  | .MINUS => PREC_TERM
  | .STAR => PREC_FACTOR
  | .SLASH => PREC_FACTOR
  | .BANG_EQUAL => PREC_EQUALITY
  | .EQUAL_EQUAL => PREC_EQUALITY
  | .GREATER => PREC_COMPARISON
  | .GREATER_EQUAL => PREC_COMPARISON
  | .LESS => PREC_COMPARISON
  | .LESS_EQUAL => PREC_COMPARISON
  | _ => PREC_NONE

/-- Emit a list of opcode bytes in order. -/
def emitOpList (ops : List ℕ) (st : CompilerState) : CompilerState :=
  ops.foldl (fun s op => emitByte op s) st

/-- Spec-side reserved-word table: the characters of each keyword token
(empty for non-keyword kinds). -/
def kwChars : TokenType → List Char
  | .AND => ['a', 'n', 'd']
  | .CLASS => ['c', 'l', 'a', 's', 's']
  | .ELSE => ['e', 'l', 's', 'e']
  | .FALSE => ['f', 'a', 'l', 's', 'e']
  | .FOR => ['f', 'o', 'r']
  | .FUN => ['f', 'u', 'n']
  | .IF => ['i', 'f']
  | .NIL => ['n', 'i', 'l']
  | .OR => ['o', 'r']
  | .PRINT => ['p', 'r', 'i', 'n', 't']
  | .RETURN => ['r', 'e', 't', 'u', 'r', 'n']
  | .SUPER => ['s', 'u', 'p', 'e', 'r']
  | .THIS => ['t', 'h', 'i', 's']
  | .TRUE => ['t', 'r', 'u', 'e']
  | .VAR => ['v', 'a', 'r']
  | .WHILE => ['w', 'h', 'i', 'l', 'e']
  | _ => []

/-- The reserved-word token kinds. -/
def keywordTokens : List TokenType :=
  [.AND, .CLASS, .ELSE, .FALSE, .FOR, .FUN, .IF, .NIL, .OR,
   .PRINT, .RETURN, .SUPER, .THIS, .TRUE, .VAR, .WHILE]

/-- Whether every CONSTANT operand in a bytecode list is strictly below
the given constant-pool size, decoding the stream from the start (any
other byte is a plain one-byte instruction). -/
def constOk : List ℕ → ℕ → Bool
  | [], _ => true
  | [op], _ => decide (op ≠ OP_CONSTANT)
  | op :: b :: rest, n =>
    if op = OP_CONSTANT then decide (b < n) && constOk rest n
    else constOk (b :: rest) n

/-- The compiler-state invariant: code and lines stay aligned; panic mode
implies the sticky error flag; and while no error has been reported the
constant pool fits the one-byte budget and every CONSTANT operand is in
bounds. -/
def Inv (st : CompilerState) : Prop :=
  st.chunk.code.length = st.chunk.lines.length ∧
  (st.panicMode = true → st.hadError = true) ∧
  (st.hadError = false →
    st.chunk.constants.length ≤ 256 ∧
    constOk st.chunk.code st.chunk.constants.length = true)

/-- Pointwise preservation: starting from `st`, the operation `f`
preserves the invariant and never clears the sticky error flag. -/
def PresAt (f : CompilerState → CompilerState) (st : CompilerState) : Prop :=
  (Inv st → Inv (f st)) ∧ ((f st).hadError = false → st.hadError = false)

/-- A compiler operation preserves the invariant and never clears the
sticky error flag, from every state. -/
def Pres (f : CompilerState → CompilerState) : Prop :=
  ∀ st : CompilerState, PresAt f st

/-! ## Concrete states and sources used by witnesses and counterexamples -/

/-- Witness chunk for the ADD step of C1. -/
def c1chunk : Chunk := { code := [OP_ADD], lines := [7], constants := [] }

/-- Witness VM state for C1: stack top `2` (right), below it `1`
(left). -/
def c1st : VMState :=
  { chunk := c1chunk, ip := 0,
    stack := [Value.number (Dbl.fin 2), Value.number (Dbl.fin 1)],
    output := "", errOutput := "" }

/-- Witness compiler state for C2. -/
def c2wst : CompilerState :=
  { scanner := initScanner [], current := dummyToken,
    previous := { type := .PLUS, text := ['+'], line := 1 },
    hadError := false, panicMode := false, chunk := initChunk, errOutput := "" }

/-- Left-association source `1 - 2 - 3` for C2. -/
def c2src : List Char := ['1', ' ', '-', ' ', '2', ' ', '-', ' ', '3']

/-- Witness VM state for C3: an EQUAL instruction over `nil` and
`true`. -/
def c3st : VMState :=
  { chunk := { code := [OP_EQUAL], lines := [1], constants := [] }, ip := 0,
    stack := [Value.bool true, Value.nil], output := "", errOutput := "" }

/-- Witness VM state for C4: a NOT instruction over `Number(0)`. -/
def c4st : VMState :=
  { chunk := { code := [OP_NOT], lines := [1], constants := [] }, ip := 0,
    stack := [Value.number (Dbl.fin 0)], output := "", errOutput := "" }

/-- A complete (terminated) string literal, on which the scanner must
produce a STRING token. -/
def c5terminated : List Char := ['"', 'a', '"']

/-- An unterminated string literal, on which the scanner must produce the
unterminated-string ERROR token. -/
def c5unterminated : List Char := ['"', 'a']

/-- The source `1+1+...+1` with `k + 1` number literals `1`. -/
def plusOnes : ℕ → List Char
  | 0 => ['1']
  | k + 1 => '1' :: '+' :: plusOnes k

/-- A source with 257 number literals: `1+1+...+1`. -/
def c6src : List Char := plusOnes 256

/-- Witness compiler state for C7: a full constant pool of 256 values. -/
def c7st : CompilerState :=
  { scanner := initScanner [], current := dummyToken,
    previous := { type := .NUMBER, text := ['1'], line := 1 },
    hadError := false, panicMode := false,
    chunk := { code := [], lines := [],
               constants := List.replicate 256 (Value.number (Dbl.fin 0)) },
    errOutput := "" }

/-- Witness source `1 + 2` for C8. -/
def c8src : List Char := ['1', ' ', '+', ' ', '2']

/-- Witness source for C6's amended claim. -/
def c6wsrc : List Char := ['4', '2']

/-- Counterexample chunk for C9: return the constant `1234567`. -/
def c9chunk : Chunk :=
  { code := [OP_CONSTANT, 0, OP_RETURN], lines := [1, 1, 1],
    constants := [Value.number (Dbl.fin 1234567)] }

/-- Counterexample VM start state for C9. -/
def c9st : VMState :=
  { chunk := c9chunk, ip := 0, stack := [], output := "", errOutput := "" }

/-- What the VM actually prints for `1234567`. -/
def c9printed : String := "1.23457e+06"

/-- Witness VM state for C9's amended claim: RETURN over a `true`. -/
def c9wst : VMState :=
  { chunk := { code := [OP_RETURN], lines := [1], constants := [] }, ip := 0,
    stack := [Value.bool true], output := "", errOutput := "" }

/-! ## States traversed while compiling `c6src` (257 literals) -/

/-- The bytecode after compiling the first `k + 1` literals of `c6src`:
`CONSTANT 0`, then `CONSTANT i; ADD` for each further literal `i`. -/
def codeK : ℕ → List ℕ
  | 0 => [OP_CONSTANT, 0]
  | k + 1 => codeK k ++ [OP_CONSTANT, k + 1, OP_ADD]

/-- The compiler state at the head of the infix loop of `expression` on
`c6src` after consuming `k + 1` literals (meaningful for `k ≤ 255`): the
current token is the next `+`, and `255 - k` literals remain unread. -/
def c6S (k : ℕ) : CompilerState :=
  { scanner := { start := '+' :: plusOnes (255 - k), current := plusOnes (255 - k),
                 len := 1, line := 1 },
    current := { type := .PLUS, text := ['+'], line := 1 },
    previous := { type := .NUMBER, text := ['1'], line := 1 },
    hadError := false, panicMode := false,
    chunk := { code := codeK k, lines := List.replicate (2 + 3 * k) 1,
               constants := List.replicate (k + 1) (Value.number (Dbl.fin 1)) },
    errOutput := "" }

/-- The compiler state at exit from that infix loop: the 257th constant
has been appended (overflowing the pool), the overflow error is recorded,
and the overflowing CONSTANT instruction carries the fallback operand 0. -/
def c6End : CompilerState :=
  { scanner := { start := [], current := [], len := 0, line := 1 },
    current := { type := .EOF, text := [], line := 1 },
    previous := { type := .NUMBER, text := ['1'], line := 1 },
    hadError := true, panicMode := true,
    chunk := { code := codeK 255 ++ [OP_CONSTANT, 0, OP_ADD],
               lines := List.replicate 770 1,
               constants := List.replicate 257 (Value.number (Dbl.fin 1)) },
    errOutput := renderError { type := .NUMBER, text := ['1'], line := 1 }
                   msgTooManyConstants }

/-! ## Theorems -/

/-- Characterization of the modelled IEEE `==`: true exactly on equal
finite values. -/
theorem dblEq_iff (d1 d2 : Dbl) :
    dblEq d1 d2 = true ↔ ∃ p, d1 = Dbl.fin p ∧ d2 = Dbl.fin p := by
  cases d1 <;> cases d2 <;> simp [dblEq, beq_iff_eq]
  exact eq_comm

/-- C3: for any two Values, the equality used by the EQUAL opcode returns
true iff they have the same variant and equal payloads (both Nil; both
Bool with equal bits; both Number with IEEE `==`, so NaN is unequal to
NaN); values of different variants compare unequal and the EQUAL opcode
never raises a runtime error; equality is symmetric for every `a`, `b`,
and `EQUAL(a,a)` is true iff `a` is not a Number NaN. -/
theorem claim_C3 :
    (∀ a b : Value, valuesEqual a b = valuesEqual b a) ∧
    (∀ a : Value, valuesEqual a a = true ↔ a ≠ Value.number Dbl.nan) ∧
    (∀ a b : Value, valuesEqual a b = true ↔
      ((a = Value.nil ∧ b = Value.nil) ∨
       (∃ x : Bool, a = Value.bool x ∧ b = Value.bool x) ∨
       (∃ p q : ℚ, a = Value.number (Dbl.fin p) ∧ b = Value.number (Dbl.fin q) ∧ p = q))) ∧
    (∀ (n : ℕ) (st : VMState) (a b : Value) (rest : List Value),
      st.chunk.code[st.ip]? = some OP_EQUAL →
      st.stack = b :: a :: rest →
      run (n + 1) st =
        run n { st with ip := st.ip + 1, stack := Value.bool (valuesEqual a b) :: rest }) := by
  refine ⟨?_, ?_, ?_, ?_⟩
  · intro a b
    cases a <;> cases b <;> simp [valuesEqual, dblEq, beq_iff_eq, eq_comm]
    · rename_i p q
      cases p <;> cases q <;> simp [dblEq, beq_iff_eq, eq_comm]
  · intro a
    cases a with
    | nil => simp [valuesEqual]
    | bool b => simp [valuesEqual]
    | number d => cases d <;> simp [valuesEqual, dblEq]
  · intro a b
    cases a <;> cases b <;> simp [valuesEqual, dblEq_iff, beq_iff_eq]
    exact eq_comm
  · intro n st a b rest hop hstack
    simp [run, hop, hstack, OP_EQUAL, OP_CONSTANT, OP_NIL, OP_TRUE, OP_FALSE]

/-- C3 witness: the theorem's VM-step component at a concrete EQUAL
instruction over `nil` and `true`. -/
theorem claim_C3_witness :
    run 2 c3st =
      run 1 { c3st with
                ip := 1, stack := [Value.bool (valuesEqual Value.nil (Value.bool true))] } :=
  claim_C3.2.2.2 1 c3st Value.nil (Value.bool true) [] rfl rfl

/-- C4: a value is falsey iff it is Nil or boolean false (`Number(0)` is
truthy); the NOT opcode pops the top value and pushes `Bool(true)`
exactly when that value is falsey; and applying the NOT computation twice
yields the Boolean of the value's truthiness. -/
theorem claim_C4 :
    (∀ v : Value, isFalsey v = true ↔ (v = Value.nil ∨ v = Value.bool false)) ∧
    (isFalsey (Value.number (Dbl.fin 0)) = false) ∧
    (∀ (n : ℕ) (st : VMState) (v : Value) (rest : List Value),
      st.chunk.code[st.ip]? = some OP_NOT →
      st.stack = v :: rest →
      run (n + 1) st =
        run n { st with ip := st.ip + 1, stack := Value.bool (isFalsey v) :: rest }) ∧
    (∀ v : Value, isFalsey (Value.bool (isFalsey v)) = !(isFalsey v)) := by
  refine ⟨?_, rfl, ?_, ?_⟩
  · intro v
    cases v with
    | nil => simp [isFalsey]
    | bool b => cases b <;> simp [isFalsey]
    | number d => simp [isFalsey]
  · intro n st v rest hop hstack
    simp [run, hop, hstack, OP_NOT, OP_CONSTANT, OP_NIL, OP_TRUE, OP_FALSE,
          OP_EQUAL, OP_GREATER, OP_LESS, OP_ADD, OP_SUBTRACT, OP_MULTIPLY, OP_DIVIDE]
  · intro v
    cases v <;> simp [isFalsey]

/-- C4 witness: the theorem's VM-step component at a concrete NOT
instruction over `Number(0)`. -/
theorem claim_C4_witness :
    run 2 c4st =
      run 1 { c4st with
                ip := 1, stack := [Value.bool (isFalsey (Value.number (Dbl.fin 0)))] } :=
  claim_C4.2.2.1 1 c4st (Value.number (Dbl.fin 0)) [] rfl rfl

/-- C5 (the code contradicts the claim): on the complete string literal
`"a"` — whose closing quote is present — the scanner's string scan
returns the ERROR token "Unterminated string.", and on the unterminated
`"a` — where end-of-source is reached before any closing quote — it
returns a STRING token: the end-of-source test in `string()` is
inverted. -/
theorem claim_C5_inverted_string_scan :
    (scanToken (initScanner c5terminated)).1.type = TokenType.ERROR ∧
    (scanToken (initScanner c5terminated)).1.text = msgUnterminated ∧
    (scanToken (initScanner c5unterminated)).1.type = TokenType.STRING := by
  refine ⟨?_, ?_, ?_⟩ <;> decide

/-- C1: executing a numeric binary opcode (ADD, SUBTRACT, MULTIPLY,
DIVIDE, GREATER, LESS) on a stack whose top two values are Numbers pops
the right operand first (the stack top `y`) and the left operand second
(`x`) and pushes the host result of `x op y` (a Boolean for
GREATER/LESS, a Number otherwise); if either of the top two values is not
a Number it reports "Operands must be numbers." with the line of the
failing instruction, resets the stack to empty, and stops with
RUNTIME_ERROR; NEGATE behaves analogously on the single top value with
"Operand must be a number.". -/
theorem claim_C1 :
    ∀ (n : ℕ) (st : VMState) (op : ℕ),
    st.chunk.code[st.ip]? = some op →
    ((op ∈ numericOps →
      (∀ (x y : Dbl) (rest : List Value),
        st.stack = Value.number y :: Value.number x :: rest →
        run (n + 1) st =
          run n { st with ip := st.ip + 1, stack := numericOpResult op x y :: rest }) ∧
      (∀ (a b : Value) (rest : List Value),
        st.stack = b :: a :: rest →
        isNumberV a = false ∨ isNumberV b = false →
        run (n + 1) st =
          (some .INTERPRET_RUNTIME_ERROR,
           { st with
               ip := st.ip + 1, stack := [],
               errOutput := st.errOutput ++ msgOperandsNumbers ++ "\n" ++
                 "[line " ++ natStr (st.chunk.lines.getD st.ip 0) ++ "] in script\n" }))) ∧
     (op = OP_NEGATE →
      (∀ (x : Dbl) (rest : List Value),
        st.stack = Value.number x :: rest →
        run (n + 1) st =
          run n { st with ip := st.ip + 1, stack := Value.number (dblNeg x) :: rest }) ∧
      (∀ (v : Value) (rest : List Value),
        st.stack = v :: rest →
        isNumberV v = false →
        run (n + 1) st =
          (some .INTERPRET_RUNTIME_ERROR,
           { st with
               ip := st.ip + 1, stack := [],
               errOutput := st.errOutput ++ msgOperandNumber ++ "\n" ++
                 "[line " ++ natStr (st.chunk.lines.getD st.ip 0) ++ "] in script\n" })))) := by
  intro n st op hop
  constructor
  · intro hmem
    have hops : op = OP_ADD ∨ op = OP_SUBTRACT ∨ op = OP_MULTIPLY ∨ op = OP_DIVIDE ∨
        op = OP_GREATER ∨ op = OP_LESS := by
      simpa [numericOps] using hmem
    constructor
    · intro x y rest hstack
      rcases hops with rfl | rfl | rfl | rfl | rfl | rfl <;>
        simp [run, hop, hstack, numericOpResult, OP_CONSTANT, OP_NIL, OP_TRUE, OP_FALSE,
              OP_EQUAL, OP_GREATER, OP_LESS, OP_ADD, OP_SUBTRACT, OP_MULTIPLY, OP_DIVIDE]
    · intro a b rest hstack hnn
      rcases hops with rfl | rfl | rfl | rfl | rfl | rfl <;>
        cases a <;> cases b <;>
        simp_all [run, hop, isNumberV, runtimeErrorV, msgOperandsNumbers,
                  OP_CONSTANT, OP_NIL, OP_TRUE, OP_FALSE, OP_EQUAL, OP_GREATER,
                  OP_LESS, OP_ADD, OP_SUBTRACT, OP_MULTIPLY, OP_DIVIDE]
  · rintro rfl
    constructor
    · intro x rest hstack
      simp [run, hop, hstack, OP_CONSTANT, OP_NIL, OP_TRUE, OP_FALSE, OP_EQUAL,
            OP_GREATER, OP_LESS, OP_ADD, OP_SUBTRACT, OP_MULTIPLY, OP_DIVIDE,
            OP_NOT, OP_NEGATE]
    · intro v rest hstack hnn
      cases v <;>
        simp_all [run, hop, isNumberV, runtimeErrorV, msgOperandNumber,
                  OP_CONSTANT, OP_NIL, OP_TRUE, OP_FALSE, OP_EQUAL, OP_GREATER,
                  OP_LESS, OP_ADD, OP_SUBTRACT, OP_MULTIPLY, OP_DIVIDE, OP_NOT, OP_NEGATE]

/-- C1 witness: the theorem's ADD success component at a concrete state
(stack top `2`, below it `1`; the result is `1 + 2`). -/
theorem claim_C1_witness :
    run 2 c1st =
      run 1 { c1st with
                ip := 1,
                stack := [numericOpResult OP_ADD (Dbl.fin 1) (Dbl.fin 2)] } :=
  ((claim_C1 1 c1st OP_ADD rfl).1 (by decide)).1 (Dbl.fin 1) (Dbl.fin 2) [] rfl

/-- C9 (amended): when the VM executes RETURN it pops the top value,
prints it — a Number via the host `printf` `%g` conversion (default
precision, 6 significant digits), a Bool as `true` or `false`, and Nil as
`nil` — followed by a newline, and returns status OK. -/
theorem claim_C9_return_prints_and_stops :
    (∀ (n : ℕ) (st : VMState) (v : Value) (rest : List Value),
      st.chunk.code[st.ip]? = some OP_RETURN →
      st.stack = v :: rest →
      run (n + 1) st =
        (some .INTERPRET_OK,
         { st with
             ip := st.ip + 1, stack := rest,
             output := st.output ++ printValue v ++ "\n" })) ∧
    printValue Value.nil = "nil" ∧
    printValue (Value.bool true) = "true" ∧
    printValue (Value.bool false) = "false" ∧
    (∀ d : Dbl, printValue (Value.number d) = formatG d) := by
  refine ⟨?_, rfl, rfl, rfl, fun d => rfl⟩
  intro n st v rest hop hstack
  simp [run, hop, hstack, OP_CONSTANT, OP_NIL, OP_TRUE, OP_FALSE, OP_EQUAL,
        OP_GREATER, OP_LESS, OP_ADD, OP_SUBTRACT, OP_MULTIPLY, OP_DIVIDE,
        OP_NOT, OP_NEGATE, OP_RETURN]

/-- C9 amended-claim witness: a concrete RETURN over `true`. -/
theorem claim_C9_witness :
    run 1 c9wst =
      (some .INTERPRET_OK,
       { c9wst with
           ip := 1, stack := [], output := printValue (Value.bool true) ++ "\n" }) :=
  claim_C9_return_prints_and_stops.1 0 c9wst (Value.bool true) [] rfl rfl

/-- C9 counterexample to the claim as stated: returning the Number
`1234567` prints `1.23457e+06` (the `%g` conversion at 6 significant
digits), which is not a round-trippable decimal form of `1234567` — it
denotes `1234570` — although the round-trippable form `1234567` exists;
so the printed form is not the shortest round-trippable decimal form. -/
theorem claim_C9_counterexample :
    run 3 c9st =
      (some .INTERPRET_OK,
       { c9st with ip := 3, stack := [], output := c9printed ++ "\n" }) ∧
    decParse c9printed.toList = some ((1234570 : ℚ)) ∧
    ¬ decParse c9printed.toList = some ((1234567 : ℚ)) ∧
    decParse (natStr 1234567).toList = some ((1234567 : ℚ)) := by
  refine ⟨?_, by decide, by decide, by decide⟩
  decide

/-- C7: whenever adding a constant yields an index greater than 255,
`makeConstant` reports "Too many constants in one chunk." (setting the
sticky error flag and panic mode; the report text is the `[line N] Error
at '<lexeme>': <message>` form) and returns 0, so `emitConstant` emits 0
as the operand byte of the CONSTANT instruction, keeping the stream
byte-aligned (exactly two bytes and two line entries are appended), and
compilation continues.  The report hypothesis `panicMode = false` is the
state outside panic mode; the returned index 0 and the emitted bytes are
unconditional. -/
theorem claim_C7 :
    ∀ (st : CompilerState) (v : Value),
    st.panicMode = false →
    256 ≤ st.chunk.constants.length →
    (makeConstant v st).2 = 0 ∧
    (makeConstant v st).1.hadError = true ∧
    (makeConstant v st).1.panicMode = true ∧
    (makeConstant v st).1.errOutput =
      st.errOutput ++ renderError st.previous msgTooManyConstants ∧
    (emitConstant v st).chunk.code = st.chunk.code ++ [OP_CONSTANT, 0] ∧
    (emitConstant v st).chunk.lines =
      st.chunk.lines ++ [st.previous.line, st.previous.line] ∧
    (emitConstant v st).hadError = true := by
  intro st v hpanic hfull
  have hlt : 255 < st.chunk.constants.length := by omega
  refine ⟨?_, ?_, ?_, ?_, ?_, ?_, ?_⟩ <;>
    simp [makeConstant, emitConstant, emitBytes, emitByte, writeChunk, addConstant,
          errorP, errorAt, hpanic, hlt, List.append_assoc]

/-- C7 witness: a concrete state whose pool already holds 256 values. -/
theorem claim_C7_witness :
    (makeConstant (Value.number (Dbl.fin 0)) c7st).2 = 0 ∧
    (makeConstant (Value.number (Dbl.fin 0)) c7st).1.hadError = true ∧
    (makeConstant (Value.number (Dbl.fin 0)) c7st).1.panicMode = true ∧
    (makeConstant (Value.number (Dbl.fin 0)) c7st).1.errOutput =
      c7st.errOutput ++ renderError c7st.previous msgTooManyConstants ∧
    (emitConstant (Value.number (Dbl.fin 0)) c7st).chunk.code =
      c7st.chunk.code ++ [OP_CONSTANT, 0] ∧
    (emitConstant (Value.number (Dbl.fin 0)) c7st).chunk.lines =
      c7st.chunk.lines ++ [c7st.previous.line, c7st.previous.line] ∧
    (emitConstant (Value.number (Dbl.fin 0)) c7st).hadError = true :=
  claim_C7 c7st (Value.number (Dbl.fin 0)) rfl (by simp [c7st])

/-- C2: for every binary operator token, the compiler parses the right
operand at precedence P+1 where P is the operator's infix precedence from
the rule table (matching the spec's precedence assignment, so operators
of equal precedence associate to the left), and then emits exactly the
spec's opcode mapping; concretely, `1 - 2 - 3` compiles to the
left-associated sequence. -/
theorem claim_C2 :
    (∀ (fuel : ℕ) (st : CompilerState) (t : TokenType),
      t ∈ binaryOperators →
      st.previous.type = t →
      binary (fuel + 1) st =
        emitOpList (specOpcodes t) (parsePrecedence fuel (specInfixPrec t + 1) st)) ∧
    (compile 100 c2src).1.chunk.code =
      [OP_CONSTANT, 0, OP_CONSTANT, 1, OP_SUBTRACT, OP_CONSTANT, 2, OP_SUBTRACT, OP_RETURN] := by
  constructor
  · intro fuel st t hmem hprev
    have ht : t = .PLUS ∨ t = .MINUS ∨ t = .STAR ∨ t = .SLASH ∨ t = .BANG_EQUAL ∨
        t = .EQUAL_EQUAL ∨ t = .GREATER ∨ t = .GREATER_EQUAL ∨ t = .LESS ∨
        t = .LESS_EQUAL := by
      simpa [binaryOperators] using hmem
    rcases ht with rfl | rfl | rfl | rfl | rfl | rfl | rfl | rfl | rfl | rfl <;>
      simp [binary, hprev, getRule, specOpcodes, specInfixPrec, emitOpList,
            emitBytes, List.foldl]
  · decide

/-- C2 witness: the theorem's universal component at the PLUS token with
zero inner fuel. -/
theorem claim_C2_witness :
    binary 1 c2wst =
      emitOpList (specOpcodes .PLUS) (parsePrecedence 0 (specInfixPrec .PLUS + 1) c2wst) :=
  claim_C2.1 0 c2wst .PLUS (by decide) rfl

/-- Unfolding of `checkKeyword`: a non-IDENTIFIER result is the supplied
keyword kind, and certifies the length and segment conditions. -/
theorem checkKeyword_result (cs : List Char) (s l : ℕ) (rest : List Char)
    (ty t : TokenType) (h : checkKeyword cs s l rest ty = t)
    (hne : t ≠ .IDENTIFIER) : ty = t ∧ cs.length = s + l ∧ cs.drop s = rest := by
  unfold checkKeyword at h
  split_ifs at h with hc
  · exact ⟨h, hc.1, hc.2⟩
  · exact absurd h.symm hne

/-- A list is pinned down by its head (via `getD`), its tail (via
`drop 1`), and its length. -/
theorem list_eq_cons_of_getD (cs : List Char) (c : Char) (rest : List Char)
    (hlen : cs.length = 1 + rest.length)
    (h0 : cs.getD 0 '\x00' = c) (h1 : cs.drop 1 = rest) : cs = c :: rest := by
  cases cs with
  | nil => simp only [List.length_nil] at hlen; omega
  | cons a tail => simp_all

/-- A list is pinned down by its first two characters, its 2-drop, and
its length. -/
theorem list_eq_cons2_of_getD (cs : List Char) (c0 c1 : Char) (rest : List Char)
    (hlen : cs.length = 2 + rest.length)
    (h0 : cs.getD 0 '\x00' = c0) (h1 : cs.getD 1 '\x00' = c1)
    (h2 : cs.drop 2 = rest) : cs = c0 :: c1 :: rest := by
  cases cs with
  | nil => simp only [List.length_nil] at hlen; omega
  | cons a tail =>
    cases tail with
    | nil => simp only [List.length_cons, List.length_nil] at hlen; omega
    | cons b tail2 => simp_all

/-- The scanner's keyword trie only reports a keyword kind on the exact
keyword lexeme. -/
theorem identifierType_keyword (cs : List Char) (t : TokenType)
    (h : identifierType cs = t) (hne : t ≠ .IDENTIFIER) :
    t ∈ keywordTokens ∧ cs = kwChars t := by
  unfold identifierType at h
  by_cases g0 : cs.getD 0 '\x00' = 'a'
  · rw [if_pos g0] at h
    obtain ⟨rfl, hlen, hdrop⟩ := checkKeyword_result _ _ _ _ _ _ h hne
    refine ⟨by decide, ?_⟩
    simp only [kwChars]
    exact list_eq_cons_of_getD _ _ _
      (by simp only [List.length_cons, List.length_nil] at hlen ⊢; omega) g0 hdrop
  · rw [if_neg g0] at h
    by_cases g1 : cs.getD 0 '\x00' = 'c'
    · rw [if_pos g1] at h
      obtain ⟨rfl, hlen, hdrop⟩ := checkKeyword_result _ _ _ _ _ _ h hne
      refine ⟨by decide, ?_⟩
      simp only [kwChars]
      exact list_eq_cons_of_getD _ _ _
        (by simp only [List.length_cons, List.length_nil] at hlen ⊢; omega) g1 hdrop
    · rw [if_neg g1] at h
      by_cases g2 : cs.getD 0 '\x00' = 'e'
      · rw [if_pos g2] at h
        obtain ⟨rfl, hlen, hdrop⟩ := checkKeyword_result _ _ _ _ _ _ h hne
        refine ⟨by decide, ?_⟩
        simp only [kwChars]
        exact list_eq_cons_of_getD _ _ _
          (by simp only [List.length_cons, List.length_nil] at hlen ⊢; omega) g2 hdrop
      · rw [if_neg g2] at h
        by_cases g3 : cs.getD 0 '\x00' = 'f'
        · rw [if_pos g3] at h
          by_cases fnlen : 1 < cs.length
          · rw [if_pos fnlen] at h
            by_cases fn0 : cs.getD 1 '\x00' = 'a'
            · rw [if_pos fn0] at h
              obtain ⟨rfl, hlen, hdrop⟩ := checkKeyword_result _ _ _ _ _ _ h hne
              refine ⟨by decide, ?_⟩
              simp only [kwChars]
              exact list_eq_cons2_of_getD _ _ _ _
                (by simp only [List.length_cons, List.length_nil] at hlen ⊢; omega) g3 fn0 hdrop
            · rw [if_neg fn0] at h
              by_cases fn1 : cs.getD 1 '\x00' = 'o'
              · rw [if_pos fn1] at h
                obtain ⟨rfl, hlen, hdrop⟩ := checkKeyword_result _ _ _ _ _ _ h hne
                refine ⟨by decide, ?_⟩
                simp only [kwChars]
                exact list_eq_cons2_of_getD _ _ _ _
                  (by simp only [List.length_cons, List.length_nil] at hlen ⊢; omega) g3 fn1 hdrop
              · rw [if_neg fn1] at h
                by_cases fn2 : cs.getD 1 '\x00' = 'u'
                · rw [if_pos fn2] at h
                  obtain ⟨rfl, hlen, hdrop⟩ := checkKeyword_result _ _ _ _ _ _ h hne
                  refine ⟨by decide, ?_⟩
                  simp only [kwChars]
                  exact list_eq_cons2_of_getD _ _ _ _
                    (by simp only [List.length_cons, List.length_nil] at hlen ⊢; omega) g3 fn2 hdrop
                · rw [if_neg fn2] at h
                  exact absurd h.symm hne
          · rw [if_neg fnlen] at h
            exact absurd h.symm hne
        · rw [if_neg g3] at h
          by_cases g4 : cs.getD 0 '\x00' = 'i'
          · rw [if_pos g4] at h
            obtain ⟨rfl, hlen, hdrop⟩ := checkKeyword_result _ _ _ _ _ _ h hne
            refine ⟨by decide, ?_⟩
            simp only [kwChars]
            exact list_eq_cons_of_getD _ _ _
              (by simp only [List.length_cons, List.length_nil] at hlen ⊢; omega) g4 hdrop
          · rw [if_neg g4] at h
            by_cases g5 : cs.getD 0 '\x00' = 'n'
            · rw [if_pos g5] at h
              obtain ⟨rfl, hlen, hdrop⟩ := checkKeyword_result _ _ _ _ _ _ h hne
              refine ⟨by decide, ?_⟩
              simp only [kwChars]
              exact list_eq_cons_of_getD _ _ _
                (by simp only [List.length_cons, List.length_nil] at hlen ⊢; omega) g5 hdrop
            · rw [if_neg g5] at h
              by_cases g6 : cs.getD 0 '\x00' = 'o'
              · rw [if_pos g6] at h
                obtain ⟨rfl, hlen, hdrop⟩ := checkKeyword_result _ _ _ _ _ _ h hne
                refine ⟨by decide, ?_⟩
                simp only [kwChars]
                exact list_eq_cons_of_getD _ _ _
                  (by simp only [List.length_cons, List.length_nil] at hlen ⊢; omega) g6 hdrop
              · rw [if_neg g6] at h
                by_cases g7 : cs.getD 0 '\x00' = 'p'
                · rw [if_pos g7] at h
                  obtain ⟨rfl, hlen, hdrop⟩ := checkKeyword_result _ _ _ _ _ _ h hne
                  refine ⟨by decide, ?_⟩
                  simp only [kwChars]
                  exact list_eq_cons_of_getD _ _ _
                    (by simp only [List.length_cons, List.length_nil] at hlen ⊢; omega) g7 hdrop
                · rw [if_neg g7] at h
                  by_cases g8 : cs.getD 0 '\x00' = 'r'
                  · rw [if_pos g8] at h
                    obtain ⟨rfl, hlen, hdrop⟩ := checkKeyword_result _ _ _ _ _ _ h hne
                    refine ⟨by decide, ?_⟩
                    simp only [kwChars]
                    exact list_eq_cons_of_getD _ _ _
                      (by simp only [List.length_cons, List.length_nil] at hlen ⊢; omega) g8 hdrop
                  · rw [if_neg g8] at h
                    by_cases g9 : cs.getD 0 '\x00' = 's'
                    · rw [if_pos g9] at h
                      obtain ⟨rfl, hlen, hdrop⟩ := checkKeyword_result _ _ _ _ _ _ h hne
                      refine ⟨by decide, ?_⟩
                      simp only [kwChars]
                      exact list_eq_cons_of_getD _ _ _
                        (by simp only [List.length_cons, List.length_nil] at hlen ⊢; omega) g9 hdrop
                    · rw [if_neg g9] at h
                      by_cases g10 : cs.getD 0 '\x00' = 't'
                      · rw [if_pos g10] at h
                        by_cases tnlen : 1 < cs.length
                        · rw [if_pos tnlen] at h
                          by_cases tn0 : cs.getD 1 '\x00' = 'h'
                          · rw [if_pos tn0] at h
                            obtain ⟨rfl, hlen, hdrop⟩ := checkKeyword_result _ _ _ _ _ _ h hne
                            refine ⟨by decide, ?_⟩
                            simp only [kwChars]
                            exact list_eq_cons2_of_getD _ _ _ _
                              (by simp only [List.length_cons, List.length_nil] at hlen ⊢; omega) g10 tn0 hdrop
                          · rw [if_neg tn0] at h
                            by_cases tn1 : cs.getD 1 '\x00' = 'r'
                            · rw [if_pos tn1] at h
                              obtain ⟨rfl, hlen, hdrop⟩ := checkKeyword_result _ _ _ _ _ _ h hne
                              refine ⟨by decide, ?_⟩
                              simp only [kwChars]
                              exact list_eq_cons2_of_getD _ _ _ _
                                (by simp only [List.length_cons, List.length_nil] at hlen ⊢; omega) g10 tn1 hdrop
                            · rw [if_neg tn1] at h
                              exact absurd h.symm hne
                        · rw [if_neg tnlen] at h
                          exact absurd h.symm hne
                      · rw [if_neg g10] at h
                        by_cases g11 : cs.getD 0 '\x00' = 'v'
                        · rw [if_pos g11] at h
                          obtain ⟨rfl, hlen, hdrop⟩ := checkKeyword_result _ _ _ _ _ _ h hne
                          refine ⟨by decide, ?_⟩
                          simp only [kwChars]
                          exact list_eq_cons_of_getD _ _ _
                            (by simp only [List.length_cons, List.length_nil] at hlen ⊢; omega) g11 hdrop
                        · rw [if_neg g11] at h
                          by_cases g12 : cs.getD 0 '\x00' = 'w'
                          · rw [if_pos g12] at h
                            obtain ⟨rfl, hlen, hdrop⟩ := checkKeyword_result _ _ _ _ _ _ h hne
                            refine ⟨by decide, ?_⟩
                            simp only [kwChars]
                            exact list_eq_cons_of_getD _ _ _
                              (by simp only [List.length_cons, List.length_nil] at hlen ⊢; omega) g12 hdrop
                          · rw [if_neg g12] at h
                            exact absurd h.symm hne


/-- No reserved word is a proper prefix of another reserved word. -/
theorem kw_prefix_free :
    ∀ t ∈ keywordTokens, ∀ t2 ∈ keywordTokens,
    (kwChars t).length < (kwChars t2).length →
    (kwChars t2).take (kwChars t).length ≠ kwChars t := by decide

/-- C10: the scanner classifies an identifier lexeme as a reserved-word
kind only when the lexeme equals that reserved word exactly; every
reserved word classifies as its keyword kind; and every lexeme that
strictly extends a reserved word classifies as IDENTIFIER. -/
theorem claim_C10 :
    (∀ (cs : List Char) (t : TokenType),
      identifierType cs = t → t ≠ .IDENTIFIER → t ∈ keywordTokens ∧ cs = kwChars t) ∧
    (∀ t ∈ keywordTokens, identifierType (kwChars t) = t) ∧
    (∀ t ∈ keywordTokens, ∀ ext : List Char, ext ≠ [] →
      identifierType (kwChars t ++ ext) = .IDENTIFIER) := by
  refine ⟨identifierType_keyword, by decide, ?_⟩
  intro t hmem ext hext
  by_contra hne
  obtain ⟨hmem2, heq⟩ := identifierType_keyword (kwChars t ++ ext) _ rfl hne
  have hlen : (kwChars t).length < (kwChars (identifierType (kwChars t ++ ext))).length := by
    rw [← heq, List.length_append]
    have := List.length_pos.mpr hext
    omega
  have htake : (kwChars (identifierType (kwChars t ++ ext))).take (kwChars t).length
      = kwChars t := by
    rw [← heq]
    exact List.take_left _ _
  exact kw_prefix_free t hmem _ hmem2 hlen htake

/-- C10 witness: the strict extensions named by the claim all classify as
IDENTIFIER (via the theorem's third component at concrete inputs). -/
theorem claim_C10_witness :
    identifierType (kwChars .CLASS ++ ['e', 's']) = .IDENTIFIER ∧
    identifierType (kwChars .NIL ++ ['l', 'y']) = .IDENTIFIER ∧
    identifierType (kwChars .TRUE ++ ['x']) = .IDENTIFIER ∧
    identifierType (kwChars .OR ++ ['s']) = .IDENTIFIER :=
  ⟨claim_C10.2.2 .CLASS (by decide) ['e', 's'] (by decide),
   claim_C10.2.2 .NIL (by decide) ['l', 'y'] (by decide),
   claim_C10.2.2 .TRUE (by decide) ['x'] (by decide),
   claim_C10.2.2 .OR (by decide) ['s'] (by decide)⟩

/-! ## The compiler invariant: preservation lemmas -/

/-- Operand validity is monotone in the pool size. -/
theorem constOk_mono : ∀ (code : List ℕ) (n m : ℕ), n ≤ m →
    constOk code n = true → constOk code m = true
  | [], _, _, _, _ => rfl
  | [op], n, m, hnm, h => h
  | op :: b :: rest, n, m, hnm, h => by
    by_cases hop : op = OP_CONSTANT
    · simp only [constOk, if_pos hop, Bool.and_eq_true, decide_eq_true_eq] at h ⊢
      exact ⟨by omega, constOk_mono rest n m hnm h.2⟩
    · simp only [constOk, if_neg hop] at h ⊢
      exact constOk_mono (b :: rest) n m hnm h

/-- Appending a plain one-byte instruction preserves operand validity. -/
theorem constOk_append_simple : ∀ (code : List ℕ) (n op : ℕ), op ≠ OP_CONSTANT →
    constOk code n = true → constOk (code ++ [op]) n = true
  | [], n, op, hop, _ => by simp [constOk, hop]
  | [a], n, op, hop, h => by
    by_cases ha : a = OP_CONSTANT
    · simp [constOk, ha] at h
    · simp [constOk, ha, hop]
  | a :: b :: rest, n, op, hop, h => by
    by_cases ha : a = OP_CONSTANT
    · simp only [constOk, if_pos ha, Bool.and_eq_true, decide_eq_true_eq] at h
      simp only [List.cons_append, constOk, if_pos ha, Bool.and_eq_true, decide_eq_true_eq]
      exact ⟨h.1, constOk_append_simple rest n op hop h.2⟩
    · simp only [constOk, if_neg ha] at h
      simp only [List.cons_append, constOk, if_neg ha]
      simpa using constOk_append_simple (b :: rest) n op hop h
  termination_by code => code.length

/-- Appending a CONSTANT instruction with an in-bounds operand preserves
operand validity. -/
theorem constOk_append_const : ∀ (code : List ℕ) (n i : ℕ), i < n →
    constOk code n = true → constOk (code ++ [OP_CONSTANT, i]) n = true
  | [], n, i, hi, _ => by simp [constOk, hi]
  | [a], n, i, hi, h => by
    by_cases ha : a = OP_CONSTANT
    · simp [constOk, ha] at h
    · simp [constOk, ha, hi]
  | a :: b :: rest, n, i, hi, h => by
    by_cases ha : a = OP_CONSTANT
    · simp only [constOk, if_pos ha, Bool.and_eq_true, decide_eq_true_eq] at h
      simp only [List.cons_append, constOk, if_pos ha, Bool.and_eq_true, decide_eq_true_eq]
      exact ⟨h.1, constOk_append_const rest n i hi h.2⟩
    · simp only [constOk, if_neg ha] at h
      simp only [List.cons_append, constOk, if_neg ha]
      simpa using constOk_append_const (b :: rest) n i hi h
  termination_by code => code.length

/-- Pointwise composition of preservation facts. -/
theorem presAt_comp {f g : CompilerState → CompilerState} {st : CompilerState}
    (h1 : PresAt f st) (h2 : PresAt g (f st)) : PresAt (fun s => g (f s)) st :=
  ⟨fun hi => h2.1 (h1.1 hi), fun he => h1.2 (h2.2 he)⟩

/-- The identity operation preserves everything. -/
theorem presAt_id (st : CompilerState) : PresAt (fun s => s) st := ⟨id, id⟩

/-- Any operation that leaves the chunk and both error flags untouched
preserves the invariant. -/
theorem pres_of_untouched (f : CompilerState → CompilerState)
    (h : ∀ st, (f st).chunk = st.chunk ∧ (f st).hadError = st.hadError ∧
      (f st).panicMode = st.panicMode) : Pres f := by
  intro st
  obtain ⟨hc, he, hp⟩ := h st
  constructor
  · intro hi
    unfold Inv at hi ⊢
    rw [hc, he, hp]
    exact hi
  · intro hfe
    rw [he] at hfe
    exact hfe

/-- `errorAt` preserves the invariant: it only sets flags and extends the
error stream. -/
theorem pres_errorAt (tok : Token) (msg : String) : Pres (errorAt tok msg) := by
  intro st
  unfold PresAt errorAt
  by_cases hp : st.panicMode = true
  · rw [if_pos hp]
    exact ⟨id, id⟩
  · rw [if_neg hp]
    refine ⟨fun hi => ⟨hi.1, fun _ => rfl, fun he => absurd he (by simp)⟩,
      fun he => absurd he (by simp)⟩

/-- `errorP` preserves the invariant. -/
theorem pres_errorP (msg : String) : Pres (errorP msg) := by
  intro st
  exact pres_errorAt st.previous msg st

/-- `errorAtCurrent` preserves the invariant. -/
theorem pres_errorAtCurrent (msg : String) : Pres (errorAtCurrent msg) := by
  intro st
  exact pres_errorAt st.current msg st

/-- The parser's `advance` loop preserves the invariant. -/
theorem pres_advanceLoop : ∀ f : ℕ, Pres (advanceLoop f) := by
  intro f
  induction f with
  | zero =>
    intro st
    have hscan : PresAt (fun s : CompilerState =>
        { s with scanner := (scanToken s.scanner).2, current := (scanToken s.scanner).1 }) st :=
      pres_of_untouched _ (fun s => ⟨rfl, rfl, rfl⟩) st
    unfold PresAt
    simp only [advanceLoop]
    by_cases hc : (scanToken st.scanner).1.type = TokenType.ERROR
    · rw [if_pos hc]
      exact hscan
    · rw [if_neg hc]
      exact hscan
  | succ f ih =>
    intro st
    have hscan : PresAt (fun s : CompilerState =>
        { s with scanner := (scanToken s.scanner).2, current := (scanToken s.scanner).1 }) st :=
      pres_of_untouched _ (fun s => ⟨rfl, rfl, rfl⟩) st
    unfold PresAt
    simp only [advanceLoop]
    by_cases hc : (scanToken st.scanner).1.type = TokenType.ERROR
    · rw [if_pos hc]
      exact presAt_comp hscan (presAt_comp (pres_errorAtCurrent _ _) (ih _))
    · rw [if_neg hc]
      exact hscan

/-- The parser's `advance` preserves the invariant. -/
theorem pres_advanceP : Pres advanceP := by
  intro st
  unfold PresAt advanceP
  exact presAt_comp
    (pres_of_untouched (fun s : CompilerState => { s with previous := s.current })
      (fun s => ⟨rfl, rfl, rfl⟩) st)
    (pres_advanceLoop _ _)

/-- `consume` preserves the invariant. -/
theorem pres_consume (ty : TokenType) (msg : String) : Pres (consume ty msg) := by
  intro st
  unfold PresAt consume
  by_cases hc : st.current.type = ty
  · rw [if_pos hc]
    exact pres_advanceP st
  · rw [if_neg hc]
    exact pres_errorAtCurrent msg st

/-- Emitting a plain one-byte instruction preserves the invariant. -/
theorem pres_emitSimple (op : ℕ) (hop : op ≠ OP_CONSTANT) : Pres (emitByte op) := by
  intro st
  unfold PresAt emitByte writeChunk
  constructor
  · intro hi
    obtain ⟨hlen, hpan, herr⟩ := hi
    refine ⟨by simp [hlen], by simpa using hpan, ?_⟩
    intro he
    simp only at he
    obtain ⟨hc256, hok⟩ := herr he
    exact ⟨by simpa using hc256, by simpa using constOk_append_simple _ _ _ hop hok⟩
  · exact fun he => by simpa using he

/-- `emitBytes` of two plain one-byte instructions preserves the
invariant. -/
theorem pres_emitBytes2 (b1 b2 : ℕ) (h1 : b1 ≠ OP_CONSTANT) (h2 : b2 ≠ OP_CONSTANT) :
    Pres (emitBytes b1 b2) := by
  intro st
  unfold emitBytes
  exact presAt_comp (pres_emitSimple b1 h1 st) (pres_emitSimple b2 h2 _)

/-- `literal` preserves the invariant. -/
theorem pres_literalH : Pres literalH := by
  intro st
  have hF := pres_emitSimple OP_FALSE (by decide) st
  have hN := pres_emitSimple OP_NIL (by decide) st
  have hT := pres_emitSimple OP_TRUE (by decide) st
  unfold PresAt
  simp only [literalH]
  rcases hty : st.previous.type <;> simp only [hty] <;>
    first | exact hF | exact hN | exact hT | exact ⟨id, id⟩

/-- `emitConstant` preserves the invariant: while no error has been
reported the new constant keeps the pool within budget (otherwise the
overflow error is reported and the sticky flag set), and the emitted
CONSTANT operand is in bounds. -/
theorem pres_emitConstant (v : Value) : Pres (emitConstant v) := by
  intro st
  unfold PresAt emitConstant makeConstant addConstant emitBytes emitByte writeChunk errorP errorAt
  dsimp only []
  split_ifs with hfull hp
  · constructor
    · intro hi
      refine ⟨by simp [hi.1], by simpa using hi.2.1, ?_⟩
      intro he
      simp only [] at he
      have h1 := hi.2.1 (by simpa using hp)
      simp_all
    · intro he
      simpa using he
  · constructor
    · intro hi
      refine ⟨by simp [hi.1], by simp, ?_⟩
      intro he
      simp at he
    · intro he
      simp at he
  · constructor
    · intro hi
      obtain ⟨hlen, hpan, herr⟩ := hi
      refine ⟨by simp [hlen], by simpa using hpan, ?_⟩
      intro he
      obtain ⟨hc256, hok⟩ := herr (by simpa using he)
      constructor
      · simp
        omega
      · have h1 := constOk_mono _ _ _ (Nat.le_succ st.chunk.constants.length) hok
        have h2 := constOk_append_const st.chunk.code (st.chunk.constants.length + 1)
          st.chunk.constants.length (by omega) h1
        simpa [List.append_assoc] using h2
    · intro he
      simpa using he

/-- `number` preserves the invariant. -/
theorem pres_numberH : Pres numberH := by
  intro st
  exact pres_emitConstant _ st

/-- All the mutually recursive Pratt-parser operations preserve the
invariant, for every fuel. -/
theorem parser_pres : ∀ fuel : ℕ,
    (∀ prec, Pres (parsePrecedence fuel prec)) ∧
    (∀ prec, Pres (infixLoop fuel prec)) ∧
    Pres (binary fuel) ∧ Pres (unary fuel) ∧ Pres (grouping fuel) := by
  intro fuel
  induction fuel with
  | zero =>
    exact ⟨fun prec st => ⟨id, id⟩, fun prec st => ⟨id, id⟩,
      fun st => ⟨id, id⟩, fun st => ⟨id, id⟩, fun st => ⟨id, id⟩⟩
  | succ f ih =>
    obtain ⟨ihP, ihL, ihB, ihU, ihG⟩ := ih
    refine ⟨?_, ?_, ?_, ?_, ?_⟩
    · intro prec st
      unfold PresAt
      simp only [parsePrecedence]
      rcases hm : (getRule (advanceP st).previous.type).prefixFn with _ | tag
      · try simp only [hm]
        exact presAt_comp (pres_advanceP st) (pres_errorP _ _)
      · try simp only [hm]
        cases tag
        · exact presAt_comp (pres_advanceP st) (presAt_comp (ihG _) (ihL prec _))
        · exact presAt_comp (pres_advanceP st) (presAt_comp (ihU _) (ihL prec _))
        · exact presAt_comp (pres_advanceP st) (presAt_comp (ihB _) (ihL prec _))
        · exact presAt_comp (pres_advanceP st) (presAt_comp (pres_numberH _) (ihL prec _))
        · exact presAt_comp (pres_advanceP st) (presAt_comp (pres_literalH _) (ihL prec _))
    · intro prec st
      unfold PresAt
      simp only [infixLoop]
      by_cases hc : prec ≤ (getRule st.current.type).precedence
      · rw [if_pos hc]
        rcases hm : (getRule (advanceP st).previous.type).infixFn with _ | tag
        · try simp only [hm]
          exact presAt_comp (pres_advanceP st) (ihL prec _)
        · try simp only [hm]
          cases tag
          · exact presAt_comp (pres_advanceP st) (presAt_comp (ihG _) (ihL prec _))
          · exact presAt_comp (pres_advanceP st) (presAt_comp (ihU _) (ihL prec _))
          · exact presAt_comp (pres_advanceP st) (presAt_comp (ihB _) (ihL prec _))
          · exact presAt_comp (pres_advanceP st) (presAt_comp (pres_numberH _) (ihL prec _))
          · exact presAt_comp (pres_advanceP st) (presAt_comp (pres_literalH _) (ihL prec _))
      · rw [if_neg hc]
        exact ⟨id, id⟩
    · intro st
      unfold PresAt
      simp only [binary]
      rcases hty : st.previous.type <;> simp only [hty] <;>
        first
          | exact presAt_comp (ihP _ st) (pres_emitSimple OP_EQUAL (by decide) _)
          | exact presAt_comp (ihP _ st) (pres_emitSimple OP_GREATER (by decide) _)
          | exact presAt_comp (ihP _ st) (pres_emitSimple OP_LESS (by decide) _)
          | exact presAt_comp (ihP _ st) (pres_emitSimple OP_ADD (by decide) _)
          | exact presAt_comp (ihP _ st) (pres_emitSimple OP_SUBTRACT (by decide) _)
          | exact presAt_comp (ihP _ st) (pres_emitSimple OP_MULTIPLY (by decide) _)
          | exact presAt_comp (ihP _ st) (pres_emitSimple OP_DIVIDE (by decide) _)
          | exact presAt_comp (ihP _ st)
              (pres_emitBytes2 OP_EQUAL OP_NOT (by decide) (by decide) _)
          | exact presAt_comp (ihP _ st)
              (pres_emitBytes2 OP_LESS OP_NOT (by decide) (by decide) _)
          | exact presAt_comp (ihP _ st)
              (pres_emitBytes2 OP_GREATER OP_NOT (by decide) (by decide) _)
          | exact ihP _ st
    · intro st
      unfold PresAt
      simp only [unary]
      rcases hty : st.previous.type <;> simp only [hty] <;>
        first
          | exact presAt_comp (ihP _ st) (pres_emitSimple OP_NOT (by decide) _)
          | exact presAt_comp (ihP _ st) (pres_emitSimple OP_NEGATE (by decide) _)
          | exact ihP _ st
    · intro st
      unfold PresAt
      simp only [grouping]
      exact presAt_comp (ihP _ st) (pres_consume _ _ _)

/-- The full compile pipeline establishes the invariant from the initial
state. -/
theorem compile_inv (fuel : ℕ) (source : List Char) : Inv (compile fuel source).1 := by
  have hinit : Inv
      { scanner := initScanner source, current := dummyToken, previous := dummyToken,
        hadError := false, panicMode := false, chunk := initChunk, errOutput := "" } := by
    refine ⟨rfl, fun h => by simp at h, fun _ => ⟨by simp [initChunk], rfl⟩⟩
  unfold compile expression
  exact (presAt_comp (pres_advanceP _)
    (presAt_comp ((parser_pres fuel).1 PREC_ASSIGNMENT _)
      (presAt_comp (pres_consume _ _ _) (pres_emitSimple OP_RETURN (by decide) _)))).1 hinit

/-! ## The infix loop on `c6src`, one iteration at a time -/

/-- One unfolding of `infixLoop` at positive fuel. -/
theorem infixLoop_step (f prec : ℕ) (st : CompilerState) :
    infixLoop (f + 1) prec st =
      if prec ≤ (getRule st.current.type).precedence then
        infixLoop f prec
          (let st := advanceP st
           match (getRule st.previous.type).infixFn with
           | some .groupingT => grouping f st
           | some .unaryT => unary f st
           | some .binaryT => binary f st
           | some .numberT => numberH st
           | some .literalT => literalH st
           | none => st)
      else st := rfl

/-- `infixLoop` exits immediately when the current token's infix
precedence is below the requested one, whatever the fuel. -/
theorem infixLoop_noInfix (fuel prec : ℕ) (st : CompilerState)
    (h : (getRule st.current.type).precedence < prec) :
    infixLoop fuel prec st = st := by
  cases fuel with
  | zero => rfl
  | succ f =>
    simp only [infixLoop]
    rw [if_neg (by omega)]

/-- The numeral `1` scans to the rational 1. -/
theorem c6_strtod_one : strtodModel ['1'] = 1 := by decide

/-- One non-overflowing iteration of the infix loop on `c6src`: consume
`+ 1`, append `CONSTANT (k+1); ADD`, grow the pool to `k + 2`. -/
theorem c6_iter (k : ℕ) (hk : k < 255) (f : ℕ) :
    infixLoop (f + 1 + 1 + 1 + 1) PREC_ASSIGNMENT (c6S k) =
      infixLoop (f + 1 + 1 + 1) PREC_ASSIGNMENT (c6S (k + 1)) := by
  obtain ⟨m, hm⟩ : ∃ m, 255 - k = m + 1 := ⟨254 - k, by omega⟩
  have hm' : 255 - (k + 1) = m := by omega
  have hcap : ¬ (255 < k + 1) := by omega
  have hlines : List.replicate (2 + 3 * (k + 1)) (1 : ℕ) =
      List.replicate (2 + 3 * k) 1 ++ [1, 1, 1] := by
    rw [show 2 + 3 * (k + 1) = (2 + 3 * k) + 3 by ring, List.replicate_add]
    rfl
  rw [infixLoop_step (f + 1 + 1 + 1) PREC_ASSIGNMENT (c6S k)]
  simp [c6S, hm, hm', hcap, hlines, plusOnes, codeK, infixLoop_noInfix,
    parsePrecedence, binary, advanceP, advanceLoop, consume, scanToken, skipWsS,
    skipWsGo, isAtEndS, peekS, peekNextS, advanceS, matchCharS, makeToken,
    errorTokenS, identifierS, numberS, digitLoopGo, identLoopGo, lexemeOf,
    isAlphaC, isDigitC, numberH, literalH, emitConstant, makeConstant,
    addConstant, emitByte, emitBytes, writeChunk, errorP, errorAt,
    errorAtCurrent, getRule, c6_strtod_one, PREC_ASSIGNMENT, PREC_TERM,
    PREC_FACTOR, PREC_NONE, OP_CONSTANT, OP_ADD, List.append_assoc,
    List.replicate_succ']

/-- The overflowing last iteration of the infix loop on `c6src`: the 257th
constant is appended, the error is reported, operand 0 is emitted. -/
theorem c6_iterLast (f : ℕ) :
    infixLoop (f + 1 + 1 + 1 + 1) PREC_ASSIGNMENT (c6S 255) =
      infixLoop (f + 1 + 1 + 1) PREC_ASSIGNMENT c6End := by
  have h770 : List.replicate 770 (1 : ℕ) = List.replicate 767 1 ++ [1, 1, 1] := by
    rw [show (770 : ℕ) = 767 + 3 from rfl, List.replicate_add]
    rfl
  have h257 : List.replicate 257 (Value.number (Dbl.fin 1)) =
      List.replicate 256 (Value.number (Dbl.fin 1)) ++ [Value.number (Dbl.fin 1)] := by
    rw [show (257 : ℕ) = 256 + 1 from rfl, List.replicate_succ']
  have hemp : ∀ s : String, "" ++ s = s := fun s => rfl
  rw [infixLoop_step (f + 1 + 1 + 1) PREC_ASSIGNMENT (c6S 255)]
  simp [c6S, c6End, h770, h257, hemp, plusOnes, infixLoop_noInfix,
    parsePrecedence, binary, advanceP, advanceLoop, consume, scanToken, skipWsS,
    skipWsGo, isAtEndS, peekS, peekNextS, advanceS, matchCharS, makeToken,
    errorTokenS, identifierS, numberS, digitLoopGo, identLoopGo, lexemeOf,
    isAlphaC, isDigitC, numberH, literalH, emitConstant, makeConstant,
    addConstant, emitByte, emitBytes, writeChunk, errorP, errorAt,
    errorAtCurrent, getRule, c6_strtod_one, PREC_ASSIGNMENT, PREC_TERM,
    PREC_FACTOR, PREC_NONE, OP_CONSTANT, OP_ADD, List.append_assoc]

/-- Folding `c6_iter` across the whole infix loop: from `c6S k` with
`255 - k` iterations to go (plus the overflowing one), the loop ends in
`c6End`. -/
theorem c6_chain : ∀ n k : ℕ, k + n = 255 →
    infixLoop (n + 5) PREC_ASSIGNMENT (c6S k) = c6End := by
  intro n
  induction n with
  | zero =>
    intro k hk
    obtain rfl : k = 255 := by omega
    have h1 := c6_iterLast 1
    have h2 := infixLoop_noInfix 4 PREC_ASSIGNMENT c6End
      (by simp [c6End, getRule, PREC_NONE, PREC_ASSIGNMENT])
    norm_num at h1 ⊢
    rw [h1, h2]
  | succ n ih =>
    intro k hk
    have hk' : k < 255 := by omega
    have h1 := c6_iter k hk' (n + 2)
    have h2 := ih (k + 1) (by omega)
    have e1 : n + 2 + 1 + 1 + 1 + 1 = n + 1 + 5 := by ring
    have e2 : n + 2 + 1 + 1 + 1 = n + 5 := by ring
    rw [e1, e2] at h1
    rw [h1, h2]

/-- Compiling `c6src` reaches the head of the infix loop in state `c6S 0`
(after the first literal), and ends with the EOF consume and RETURN. -/
theorem c6_entry (f : ℕ) :
    (compile (f + 1) c6src).1 =
      emitByte OP_RETURN (consume .EOF msgExpectEnd
        (infixLoop f PREC_ASSIGNMENT (c6S 0))) := by
  have h256 : c6src = '1' :: '+' :: plusOnes 255 := rfl
  simp [compile, expression, parsePrecedence, initScanner, initChunk, dummyToken,
    h256, c6S, codeK, advanceP, advanceLoop, scanToken, skipWsS, skipWsGo,
    isAtEndS, peekS, peekNextS, advanceS, matchCharS, makeToken, errorTokenS,
    identifierS, numberS, digitLoopGo, identLoopGo, lexemeOf, isAlphaC, isDigitC,
    numberH, literalH, emitConstant, makeConstant, addConstant, emitByte,
    emitBytes, writeChunk, errorP, errorAt, errorAtCurrent, getRule,
    c6_strtod_one, PREC_ASSIGNMENT, PREC_TERM, PREC_NONE, OP_CONSTANT,
    List.append_assoc,
    (show List.replicate 2 (1 : ℕ) = [1, 1] from rfl),
    (show List.replicate 1 (Value.number (Dbl.fin 1)) = [Value.number (Dbl.fin 1)]
      from rfl)]

/-- C6 counterexample: compiling a source with 257 number literals leaves
257 values in the constant pool, breaching the claimed bound of 256 that
the spec asserts "at every point during and after compilation (including
compilations that report errors)". -/
theorem claim_C6_counterexample :
    (compile 261 c6src).1.chunk.constants.length = 257 ∧
    ¬ ((compile 261 c6src).1.chunk.constants.length ≤ 256) := by
  have hentry := c6_entry 260
  norm_num at hentry
  have hchain := c6_chain 255 0 (by norm_num)
  norm_num at hchain
  rw [hchain] at hentry
  rw [hentry]
  exact ⟨by decide, by decide⟩

/-- C6 (amended): for every compile that reports success (no error), the
constant pool of the produced chunk holds at most 256 values; the
unrestricted bound fails on error compiles because `makeConstant` appends
to the pool before checking the index (see `claim_C6_counterexample`). -/
theorem claim_C6 :
    ∀ (fuel : ℕ) (source : List Char),
      (compile fuel source).2 = true →
      (compile fuel source).1.chunk.constants.length ≤ 256 := by
  intro fuel source h
  have h2 : (compile fuel source).2 = !(compile fuel source).1.hadError := rfl
  rw [h2] at h
  have h3 : (compile fuel source).1.hadError = false := by simpa using h
  exact ((compile_inv fuel source).2.2 h3).1

/-- C6 witness: the successful compile of `42` keeps the pool within the
bound. -/
theorem claim_C6_witness :
    (compile 50 c6wsrc).2 = true ∧
    (compile 50 c6wsrc).1.chunk.constants.length ≤ 256 :=
  ⟨by decide, claim_C6 50 c6wsrc (by decide)⟩

/-- C8: every chunk write appends exactly one byte to `code` and one line
number to `lines` together; consequently `|code| = |lines|` for the chunk
produced by every compile (with any fuel, on any source, also failing
ones); and on every successful compile each CONSTANT operand byte is a
strictly in-bounds index into the constant pool. -/
theorem claim_C8 :
    (∀ (c : Chunk) (b l : ℕ),
      (writeChunk c b l).code = c.code ++ [b] ∧
      (writeChunk c b l).lines = c.lines ++ [l]) ∧
    (∀ (fuel : ℕ) (source : List Char),
      (compile fuel source).1.chunk.code.length =
        (compile fuel source).1.chunk.lines.length) ∧
    (∀ (fuel : ℕ) (source : List Char),
      (compile fuel source).2 = true →
      constOk (compile fuel source).1.chunk.code
        (compile fuel source).1.chunk.constants.length = true) := by
  refine ⟨fun c b l => ⟨rfl, rfl⟩, fun fuel source => (compile_inv fuel source).1, ?_⟩
  intro fuel source h
  have h2 : (compile fuel source).2 = !(compile fuel source).1.hadError := rfl
  rw [h2] at h
  have h3 : (compile fuel source).1.hadError = false := by simpa using h
  exact ((compile_inv fuel source).2.2 h3).2

/-- C8 witness: the compile of `1 + 2` succeeds and its CONSTANT operands
are in bounds. -/
theorem claim_C8_witness :
    (compile 50 c8src).2 = true ∧
    constOk (compile 50 c8src).1.chunk.code
      (compile 50 c8src).1.chunk.constants.length = true :=
  ⟨by decide, claim_C8.2.2 50 c8src (by decide)⟩

end Clox
